import Mathlib

/-!
# Shallow embedding of the nasdaq-itch-orderbook core

This development models the order-book engine (`src/orderbook.rs`), the
message classifier (`src/message_types.rs`) and the feed walker
(`src/parser.rs`) of the nasdaq-itch-orderbook repository, and proves the
specified properties of the model.

Modelling conventions:

* Byte buffers (`&[u8]`) are `List Nat`; reading a byte takes the stored
  value mod 256 (the `u8` type of the slice elements).
* `u16`/`u32`/`u64` quantities are `Nat`; wrapping `u32` addition is
  written with an explicit `% 4294967296`, and `u32::saturating_sub` is
  truncated `Nat` subtraction.
* `FxHashMap<u64, Order>` is an association list (insertion replaces an
  existing binding, as `HashMap::insert` does); `BTreeMap<u32, u32>` is an
  association list kept sorted by strictly ascending key.
* `f64` values (mid price, imbalance) are modelled as exact rationals;
  the claims under study concern which operands feed the formulas, not
  IEEE-754 rounding.
* The `BufWriter<File>` sink is the list of written data rows; the engine
  never produces an `io::Error` in the pure model, so handlers return the
  next state directly (the Rust `Result` is always `Ok` apart from sink
  I/O failures, which have no pure counterpart).
-/

namespace Itch

/-- Side of the book (`enum Side` in src/orderbook.rs). -/
inductive Side where
  | Buy
  | Sell
deriving Repr, DecidableEq

/-- `From<u8> for Side`: byte `b'B'` (66) gives `Buy`, anything else `Sell`. -/
def Side.ofByte (b : Nat) : Side :=
  if b = 66 then Side.Buy else Side.Sell

/-- A resting order (`struct Order` in src/orderbook.rs). -/
structure Order where
  ref_number : Nat
  timestamp : Nat
  price : Nat
  shares : Nat
  side : Side
deriving Repr, DecidableEq

/-- One aggregated price level (`struct PriceLevel` in src/orderbook.rs). -/
structure PriceLevel where
  price : Nat
  total_volume : Nat
deriving Repr, DecidableEq

/-- Message classifier (`enum MessageType` in src/message_types.rs). -/
inductive MessageType where
  | SystemEvent
  | StockDirectory
  | StockTradingAction
  | RegShoRestriction
  | MarketParticipantPosition
  | MwcbDeclineLevel
  | MwcbStatus
  | IpoQuotingPeriodUpdate
  | LuldAuctionCollar
  | OperationalHalt
  | AddOrder
  | AddOrderWithMpid
  | OrderExecuted
  | OrderExecutedWithPrice
  | OrderCancel
  | OrderDelete
  | OrderReplace
  | Trade
  | CrossTrade
  | BrokenTrade
  | Noii
  | Rpii
  | DirectListingWithCapitalRaisePriceDiscovery
  | Unknown
deriving Repr, DecidableEq

/-- `From<u8> for MessageType` (src/message_types.rs). -/
def MessageType.ofByte (b : Nat) : MessageType :=
  if b = 83 then MessageType.SystemEvent                -- b'S'
  else if b = 82 then MessageType.StockDirectory        -- b'R'
  else if b = 72 then MessageType.StockTradingAction    -- b'H'
  else if b = 89 then MessageType.RegShoRestriction     -- b'Y'
  else if b = 76 then MessageType.MarketParticipantPosition -- b'L'
  else if b = 86 then MessageType.MwcbDeclineLevel      -- b'V'
  else if b = 87 then MessageType.MwcbStatus            -- b'W'
  else if b = 75 then MessageType.IpoQuotingPeriodUpdate -- b'K'
  else if b = 74 then MessageType.LuldAuctionCollar     -- b'J'
  else if b = 104 then MessageType.OperationalHalt      -- b'h'
  else if b = 65 then MessageType.AddOrder              -- b'A'
  else if b = 70 then MessageType.AddOrderWithMpid      -- b'F'
  else if b = 69 then MessageType.OrderExecuted         -- b'E'
  else if b = 67 then MessageType.OrderExecutedWithPrice -- b'C'
  else if b = 88 then MessageType.OrderCancel           -- b'X'
  else if b = 68 then MessageType.OrderDelete           -- b'D'
  else if b = 85 then MessageType.OrderReplace          -- b'U'
  else if b = 80 then MessageType.Trade                 -- b'P'
  else if b = 81 then MessageType.CrossTrade            -- b'Q'
  else if b = 66 then MessageType.BrokenTrade           -- b'B'
  else if b = 73 then MessageType.Noii                  -- b'I'
  else if b = 78 then MessageType.Rpii                  -- b'N'
  else if b = 79 then MessageType.DirectListingWithCapitalRaisePriceDiscovery -- b'O'
  else MessageType.Unknown

/-! ## Byte readers (src/orderbook.rs lines 67-89, src/parser.rs lines 31-46) -/

/-- Read one byte of the buffer; entries are `u8`, hence the mod 256.
    Out-of-range reads default to 0 (theorems that depend on the bytes
    carry explicit length hypotheses). -/
def byteAt (data : List Nat) (i : Nat) : Nat :=
  data.getD i 0 % 256

/-- `read_u16_be` (src/parser.rs): 2 bytes, big-endian. -/
def read_u16_be (data : List Nat) (offset : Nat) : Nat :=
  byteAt data offset * 256 + byteAt data (offset + 1)

/-- `read_u32_be` (src/orderbook.rs): 4 bytes, big-endian. -/
def read_u32_be (data : List Nat) (offset : Nat) : Nat :=
  byteAt data offset * 16777216 + byteAt data (offset + 1) * 65536 +
    byteAt data (offset + 2) * 256 + byteAt data (offset + 3)

/-- `read_order_ref_be` (src/orderbook.rs): 8 bytes folded big-endian
    (`result <<= 8; result |= byte`). -/
def read_order_ref_be (data : List Nat) (offset : Nat) : Nat :=
  (List.range 8).foldl (fun r i => r * 256 + byteAt data (offset + i)) 0

/-- `read_timestamp_be` (src/parser.rs): 6 bytes, big-endian, zero-extended. -/
def read_timestamp_be (data : List Nat) (offset : Nat) : Nat :=
  (List.range 6).foldl (fun r i => r * 256 + byteAt data (offset + i)) 0

/-- `read_stock` (src/orderbook.rs): copy 8 symbol bytes verbatim. -/
def read_stock (data : List Nat) (offset : Nat) : List Nat :=
  (List.range 8).map (fun i => byteAt data (offset + i))

/-! ## The two map types -/

/-- `FxHashMap<u64, Order>` as an association list. -/
abbrev OrdMap := List (Nat × Order)

/-- `HashMap::get` / `get_mut` lookup. -/
def findOrd (m : OrdMap) (k : Nat) : Option Order :=
  match m with
  | [] => none
  | (k', o) :: t => if k' = k then some o else findOrd t k

/-- `HashMap::insert`: replaces an existing binding, otherwise adds one.
    (Also models in-place mutation through `get_mut` of a present key.) -/
def insertOrd (m : OrdMap) (k : Nat) (o : Order) : OrdMap :=
  match m with
  | [] => [(k, o)]
  | (k', o') :: t => if k' = k then (k, o) :: t else (k', o') :: insertOrd t k o

/-- `HashMap::remove`. -/
def eraseOrd (m : OrdMap) (k : Nat) : OrdMap :=
  match m with
  | [] => []
  | (k', o) :: t => if k' = k then t else (k', o) :: eraseOrd t k

/-- `BTreeMap<u32, u32>` as an association list sorted by ascending key. -/
abbrev PriceMap := List (Nat × Nat)

/-- `BTreeMap::get` / `get_mut` lookup. -/
def findPL (m : PriceMap) (k : Nat) : Option Nat :=
  match m with
  | [] => none
  | (k', v) :: t => if k' = k then some v else findPL t k

/-- Lookup with default 0. -/
def findPLD (m : PriceMap) (k : Nat) : Nat :=
  (findPL m k).getD 0

/-- `*map.entry(price).or_insert(0) += shares` — the stored value is a
    `u32`, so the addition wraps at 2^32.  Sorted insertion keeps the
    ascending key order of the `BTreeMap`. -/
def addVolume (m : PriceMap) (p v : Nat) : PriceMap :=
  match m with
  | [] => [(p, v % 4294967296)]
  | (q, w) :: t =>
    if p < q then (p, v % 4294967296) :: (q, w) :: t
    else if p = q then (p, (w + v) % 4294967296) :: t
    else (q, w) :: addVolume t p v

/-- `if let Some(vol) = map.get_mut(&p) { *vol = vol.saturating_sub(amt);
    if *vol == 0 { map.remove(&p); } }` — absent keys are left alone. -/
def decVolume (m : PriceMap) (p amt : Nat) : PriceMap :=
  match m with
  | [] => []
  | (q, w) :: t =>
    if q = p then (if w - amt = 0 then t else (q, w - amt) :: t)
    else (q, w) :: decVolume t p amt

/-! ## The order book -/

/-- One emitted CSV data row (the formatted line written by
    `write_orderbook`, lines 618-651 of src/orderbook.rs). -/
structure Row where
  timestamp : Nat
  bids : List PriceLevel
  asks : List PriceLevel
  mid_price : ℚ
  imbalance : ℚ
deriving Repr, DecidableEq

/-- `struct OrderbookState` (delta-comparison shadow). -/
structure OrderbookState where
  timestamp : Nat
  bid_levels : List PriceLevel
  ask_levels : List PriceLevel
  mid_price : ℚ
  imbalance : ℚ
deriving Repr, DecidableEq

/-- `struct OrderBook` (src/orderbook.rs).  The `BufWriter<File>` is the
    list of data rows written so far; `line_buffer` is a formatting
    scratch buffer with no observable content and is omitted. -/
structure OrderBook where
  symbol : List Nat
  buy_orders : OrdMap
  sell_orders : OrdMap
  buy_price_map : PriceMap
  sell_price_map : PriceMap
  rows : List Row
  last_state : Option OrderbookState
  message_count : Nat
  update_count : Nat
deriving Repr, DecidableEq

/-- `OrderBook::new` (the CSV header row is written here; `rows` models
    only the data rows that follow it). -/
def OrderBook.init (symbol : List Nat) : OrderBook :=
  { symbol := symbol
    buy_orders := []
    sell_orders := []
    buy_price_map := []
    sell_price_map := []
    rows := []
    last_state := none
    message_count := 0
    update_count := 0 }

def MAX_BOOK_DEPTH : Nat := 10

/-- `calculate_imbalance` (src/orderbook.rs lines 93-103).  The volume
    sums are `u32` sums (`Iterator::sum::<u32>()` folds with wrapping
    addition, so the result is the sum mod 2^32). -/
def calculate_imbalance (bids asks : List PriceLevel) : ℚ :=
  let total_bid_volume : Nat := (bids.map (fun pl => pl.total_volume)).sum % 4294967296
  let total_ask_volume : Nat := (asks.map (fun pl => pl.total_volume)).sum % 4294967296
  if total_bid_volume = 0 ∧ total_ask_volume = 0 then 0
  else
    ((total_bid_volume : ℚ) - (total_ask_volume : ℚ)) /
      ((total_bid_volume : ℚ) + (total_ask_volume : ℚ))

/-- `get_top_bids` (src/orderbook.rs lines 669-679): reverse iteration of
    the ascending map gives the highest prices first. -/
def get_top_bids (b : OrderBook) (count : Nat) : List PriceLevel :=
  (b.buy_price_map.reverse.take count).map
    (fun pv => { price := pv.1, total_volume := pv.2 })

/-- `get_top_asks` (src/orderbook.rs lines 681-690): ascending iteration
    gives the lowest prices first. -/
def get_top_asks (b : OrderBook) (count : Nat) : List PriceLevel :=
  (b.sell_price_map.take count).map
    (fun pv => { price := pv.1, total_volume := pv.2 })

/-- `pad_levels` (src/orderbook.rs lines 662-667): push `{0, 0}` entries
    until the vector has `count` levels. -/
def pad_levels (levels : List PriceLevel) (count : Nat) : List PriceLevel :=
  levels ++ List.replicate (count - levels.length) { price := 0, total_volume := 0 }

/-- `bids.get(0).map_or(0, |p| p.price)`. -/
def best_price (levels : List PriceLevel) : Nat :=
  match levels.head? with
  | some pl => pl.price
  | none => 0

/-- The mid price computed by `write_orderbook` (lines 587-588):
    `(best_bid as f64 + best_ask as f64) / 20000.0`. -/
def mid_price_of (b : OrderBook) : ℚ :=
  ((best_price (get_top_bids b MAX_BOOK_DEPTH) : ℚ) +
    (best_price (get_top_asks b MAX_BOOK_DEPTH) : ℚ)) / 20000

/-- The imbalance computed by `write_orderbook` (line 590). -/
def imbalance_of (b : OrderBook) : ℚ :=
  calculate_imbalance (get_top_bids b MAX_BOOK_DEPTH) (get_top_asks b MAX_BOOK_DEPTH)

/-- The delta-comparison shadow state built in `write_orderbook`
    (lines 593-599). -/
def orderbookStateOf (b : OrderBook) (timestamp : Nat) : OrderbookState :=
  { timestamp := timestamp
    bid_levels := get_top_bids b MAX_BOOK_DEPTH
    ask_levels := get_top_asks b MAX_BOOK_DEPTH
    mid_price := mid_price_of b
    imbalance := imbalance_of b }

/-- The data row assembled by `write_orderbook` (lines 618-651): padded
    depth-10 bid and ask slices, mid price and imbalance. -/
def snapshotRow (b : OrderBook) (timestamp : Nat) : Row :=
  { timestamp := timestamp
    bids := pad_levels (get_top_bids b MAX_BOOK_DEPTH) MAX_BOOK_DEPTH
    asks := pad_levels (get_top_asks b MAX_BOOK_DEPTH) MAX_BOOK_DEPTH
    mid_price := mid_price_of b
    imbalance := imbalance_of b }

/-- `write_orderbook` (src/orderbook.rs lines 581-659).  The source also
    computes `same_bids`/`same_asks` against `last_state`, but the early
    return on equality is commented out, so the comparison never
    suppresses the write: the row is appended unconditionally.  The
    periodic `flush` affects no observable file content and is omitted. -/
def write_orderbook (b : OrderBook) (timestamp : Nat) : OrderBook :=
  { b with
    update_count := b.update_count + 1
    last_state := some (orderbookStateOf b timestamp)
    rows := b.rows ++ [snapshotRow b timestamp] }

/-- `add_order` (src/orderbook.rs lines 556-571). -/
def add_order (b : OrderBook) (order : Order) : OrderBook :=
  let ts := order.timestamp
  if order.side = Side.Buy then
    write_orderbook
      { b with
        buy_price_map := addVolume b.buy_price_map order.price order.shares
        buy_orders := insertOrd b.buy_orders order.ref_number order } ts
  else
    write_orderbook
      { b with
        sell_price_map := addVolume b.sell_price_map order.price order.shares
        sell_orders := insertOrd b.sell_orders order.ref_number order } ts

/-- `handle_add_order` (src/orderbook.rs lines 152-189). -/
def handle_add_order (b : OrderBook) (data : List Nat) (timestamp : Nat) : OrderBook :=
  let stock := read_stock data 23
  if stock ≠ b.symbol then b
  else
    let order_ref_number := read_order_ref_be data 10
    let buy_sell_indicator := byteAt data 18
    let shares := read_u32_be data 19
    let price := read_u32_be data 31
    add_order b
      { ref_number := order_ref_number
        timestamp := timestamp
        price := price
        shares := shares
        side := Side.ofByte buy_sell_indicator }

/-- `handle_add_order_with_mpid` (lines 191-228): identical to
    `handle_add_order`; the trailing attribution field is never read. -/
def handle_add_order_with_mpid (b : OrderBook) (data : List Nat) (timestamp : Nat) : OrderBook :=
  let stock := read_stock data 23
  if stock ≠ b.symbol then b
  else
    let order_ref_number := read_order_ref_be data 10
    let buy_sell_indicator := byteAt data 18
    let shares := read_u32_be data 19
    let price := read_u32_be data 31
    add_order b
      { ref_number := order_ref_number
        timestamp := timestamp
        price := price
        shares := shares
        side := Side.ofByte buy_sell_indicator }

/-- `handle_order_executed` (src/orderbook.rs lines 230-284): saturating
    decrement of the order and of its price level, pruning each at zero. -/
def handle_order_executed (b : OrderBook) (data : List Nat) (timestamp : Nat) : OrderBook :=
  let order_ref_number := read_order_ref_be data 10
  let executed_shares := read_u32_be data 18
  match findOrd b.buy_orders order_ref_number with
  | some order =>
    let order' := { order with shares := order.shares - executed_shares }
    let orders := insertOrd b.buy_orders order_ref_number order'
    let orders := if order'.shares = 0 then eraseOrd orders order_ref_number else orders
    write_orderbook
      { b with
        buy_orders := orders
        buy_price_map := decVolume b.buy_price_map order.price executed_shares } timestamp
  | none =>
    match findOrd b.sell_orders order_ref_number with
    | some order =>
      let order' := { order with shares := order.shares - executed_shares }
      let orders := insertOrd b.sell_orders order_ref_number order'
      let orders := if order'.shares = 0 then eraseOrd orders order_ref_number else orders
      write_orderbook
        { b with
          sell_orders := orders
          sell_price_map := decVolume b.sell_price_map order.price executed_shares } timestamp
    | none => b

/-- `handle_order_executed_with_price` (lines 286-342): same body as
    `handle_order_executed`; the printable flag and execution price are
    not read and do not affect book state. -/
def handle_order_executed_with_price (b : OrderBook) (data : List Nat) (timestamp : Nat) : OrderBook :=
  let order_ref_number := read_order_ref_be data 10
  let executed_shares := read_u32_be data 18
  match findOrd b.buy_orders order_ref_number with
  | some order =>
    let order' := { order with shares := order.shares - executed_shares }
    let orders := insertOrd b.buy_orders order_ref_number order'
    let orders := if order'.shares = 0 then eraseOrd orders order_ref_number else orders
    write_orderbook
      { b with
        buy_orders := orders
        buy_price_map := decVolume b.buy_price_map order.price executed_shares } timestamp
  | none =>
    match findOrd b.sell_orders order_ref_number with
    | some order =>
      let order' := { order with shares := order.shares - executed_shares }
      let orders := insertOrd b.sell_orders order_ref_number order'
      let orders := if order'.shares = 0 then eraseOrd orders order_ref_number else orders
      write_orderbook
        { b with
          sell_orders := orders
          sell_price_map := decVolume b.sell_price_map order.price executed_shares } timestamp
    | none => b

/-- `handle_order_cancel` (lines 344-397): same shape with
    `cancelled_shares`. -/
def handle_order_cancel (b : OrderBook) (data : List Nat) (timestamp : Nat) : OrderBook :=
  let order_ref_number := read_order_ref_be data 10
  let cancelled_shares := read_u32_be data 18
  match findOrd b.buy_orders order_ref_number with
  | some order =>
    let order' := { order with shares := order.shares - cancelled_shares }
    let orders := insertOrd b.buy_orders order_ref_number order'
    let orders := if order'.shares = 0 then eraseOrd orders order_ref_number else orders
    write_orderbook
      { b with
        buy_orders := orders
        buy_price_map := decVolume b.buy_price_map order.price cancelled_shares } timestamp
  | none =>
    match findOrd b.sell_orders order_ref_number with
    | some order =>
      let order' := { order with shares := order.shares - cancelled_shares }
      let orders := insertOrd b.sell_orders order_ref_number order'
      let orders := if order'.shares = 0 then eraseOrd orders order_ref_number else orders
      write_orderbook
        { b with
          sell_orders := orders
          sell_price_map := decVolume b.sell_price_map order.price cancelled_shares } timestamp
    | none => b

/-- `handle_order_delete` (lines 400-456): the removal side is the map
    in which the reference was found (Buy is checked first). -/
def handle_order_delete (b : OrderBook) (data : List Nat) (timestamp : Nat) : OrderBook :=
  let order_ref_number := read_order_ref_be data 10
  match findOrd b.buy_orders order_ref_number with
  | some entry =>
    write_orderbook
      { b with
        buy_orders := eraseOrd b.buy_orders order_ref_number
        buy_price_map := decVolume b.buy_price_map entry.price entry.shares } timestamp
  | none =>
    match findOrd b.sell_orders order_ref_number with
    | some entry =>
      write_orderbook
        { b with
          sell_orders := eraseOrd b.sell_orders order_ref_number
          sell_price_map := decVolume b.sell_price_map entry.price entry.shares } timestamp
    | none => b

/-- `handle_order_replace` (lines 459-529): remove the original order
    (branching on the *stored* side of the found order), then re-add a
    new order with the payload's new reference, shares and price on the
    same side; the re-add emits the single snapshot row. -/
def handle_order_replace (b : OrderBook) (data : List Nat) (timestamp : Nat) : OrderBook :=
  let original_order_ref_number := read_order_ref_be data 10
  let new_order_ref_number := read_order_ref_be data 18
  let new_shares := read_u32_be data 26
  let new_price := read_u32_be data 30
  match findOrd b.buy_orders original_order_ref_number with
  | some order =>
    let b1 :=
      if order.side = Side.Buy then
        { b with
          buy_orders := eraseOrd b.buy_orders original_order_ref_number
          buy_price_map := decVolume b.buy_price_map order.price order.shares }
      else
        { b with
          sell_orders := eraseOrd b.sell_orders original_order_ref_number
          sell_price_map := decVolume b.sell_price_map order.price order.shares }
    add_order b1
      { ref_number := new_order_ref_number
        timestamp := timestamp
        price := new_price
        shares := new_shares
        side := order.side }
  | none =>
    match findOrd b.sell_orders original_order_ref_number with
    | some order =>
      let b1 :=
        if order.side = Side.Buy then
          { b with
            buy_orders := eraseOrd b.buy_orders original_order_ref_number
            buy_price_map := decVolume b.buy_price_map order.price order.shares }
        else
          { b with
            sell_orders := eraseOrd b.sell_orders original_order_ref_number
            sell_price_map := decVolume b.sell_price_map order.price order.shares }
      add_order b1
        { ref_number := new_order_ref_number
          timestamp := timestamp
          price := new_price
          shares := new_shares
          side := order.side }
    | none => b

/-- `handle_trade` (lines 531-554): symbol gate only, never mutates the
    book and never writes a row. -/
def handle_trade (b : OrderBook) (data : List Nat) : OrderBook :=
  let stock := read_stock data 23
  if stock ≠ b.symbol then b else b

/-- `handle_message` (lines 135-150): bumps the message counter, then
    dispatches on the message type; unhandled variants return `Ok(())`. -/
def handle_message (b : OrderBook) (message_type : MessageType) (data : List Nat)
    (timestamp : Nat) : OrderBook :=
  let b' := { b with message_count := b.message_count + 1 }
  match message_type with
  | MessageType.AddOrder => handle_add_order b' data timestamp
  | MessageType.AddOrderWithMpid => handle_add_order_with_mpid b' data timestamp
  | MessageType.OrderExecuted => handle_order_executed b' data timestamp
  | MessageType.OrderExecutedWithPrice => handle_order_executed_with_price b' data timestamp
  | MessageType.OrderCancel => handle_order_cancel b' data timestamp
  | MessageType.OrderDelete => handle_order_delete b' data timestamp
  | MessageType.OrderReplace => handle_order_replace b' data timestamp
  | MessageType.Trade => handle_trade b' data
  | _ => b'

/-! ## The feed walker (src/parser.rs) -/

/-- `size_of::<MessageHeader>()` — the header struct is
    `#[repr(C, packed)] { length: u16, message_type: u8 }`, 3 bytes. -/
def MSG_HEADER_SIZE : Nat := 3

/-- The timestamp extraction of src/parser.rs lines 81-98: the eight
    in-scope variants read a 6-byte big-endian timestamp at payload
    offset 4 when at least 10 payload bytes are available, and fall back
    to 0 otherwise; every other variant gets 0. -/
def frame_timestamp (message_type : MessageType) (message_data : List Nat) : Nat :=
  match message_type with
  | MessageType.AddOrder | MessageType.AddOrderWithMpid | MessageType.OrderExecuted
  | MessageType.OrderExecutedWithPrice | MessageType.OrderCancel | MessageType.OrderDelete
  | MessageType.OrderReplace | MessageType.Trade =>
    if message_data.length ≥ 10 then read_timestamp_be message_data 4 else 0
  | _ => 0

/-- The eight message variants dispatched with a real timestamp. -/
def inScopeType (message_type : MessageType) : Bool :=
  match message_type with
  | MessageType.AddOrder | MessageType.AddOrderWithMpid | MessageType.OrderExecuted
  | MessageType.OrderExecutedWithPrice | MessageType.OrderCancel | MessageType.OrderDelete
  | MessageType.OrderReplace | MessageType.Trade => true
  | _ => false

/-- One iteration of the `process_itch_file` loop, reified:
    the cursor value at the frame's header, the `u16` length prefix, the
    classified type, the payload slice handed to `handle_message`, and
    the timestamp extracted for the dispatch. -/
structure Frame where
  start : Nat
  msg_length : Nat
  msg_type : MessageType
  message_data : List Nat
  timestamp : Nat
deriving Repr, DecidableEq

/-- The frame walk of `process_itch_file` (src/parser.rs lines 50-116),
    with the loop turned into fuel-indexed recursion (each iteration
    consumes at least 3 input bytes, so `data.length + 1` fuel is always
    enough; see `process_frames`).  The walk stops when fewer than
    `MSG_HEADER_SIZE` bytes remain, or when
    `offset + MSG_HEADER_SIZE + msg_length > data.length` (the source
    checks this after advancing past the header).  A zero length prefix
    makes the source's `msg_length - 1` slice arithmetic underflow and
    panic; the walk ends there, no further frame being processed. -/
def process_frames_aux (data : List Nat) : Nat → Nat → List Frame
  | 0, _ => []
  | fuel + 1, offset =>
    if offset + MSG_HEADER_SIZE ≤ data.length then
      let msg_length := read_u16_be data offset
      let msg_type_byte := byteAt data (offset + 2)
      let offset2 := offset + MSG_HEADER_SIZE
      if offset2 + msg_length ≤ data.length then
        if 1 ≤ msg_length then
          let message_type := MessageType.ofByte msg_type_byte
          let message_data := (data.drop offset2).take (msg_length - 1)
          { start := offset
            msg_length := msg_length
            msg_type := message_type
            message_data := message_data
            timestamp := frame_timestamp message_type message_data }
            :: process_frames_aux data fuel (offset2 + (msg_length - 1))
        else []
      else []
    else []

/-- The full frame walk, cursor starting at offset 0. -/
def process_frames (data : List Nat) : List Frame :=
  process_frames_aux data (data.length + 1) 0

/-- `process_itch_file`: walk the frames and dispatch every frame whose
    classified type is not `Unknown` to `handle_message`. -/
def process_itch_file (data : List Nat) (order_book : OrderBook) : OrderBook :=
  (process_frames data).foldl
    (fun b f =>
      if f.msg_type ≠ MessageType.Unknown then
        handle_message b f.msg_type f.message_data f.timestamp
      else b)
    order_book

end Itch

namespace Itch

/-! ## Association-list lemmas for the order maps -/

/-- Sum of open shares over all orders resting at price `p` (the
    right-hand side of the level-volume invariant). -/
def sumSharesAt (m : OrdMap) (p : Nat) : Nat :=
  (m.map (fun kv => if kv.2.price = p then kv.2.shares else 0)).sum

theorem sumSharesAt_nil (p : Nat) : sumSharesAt [] p = 0 := rfl

theorem sumSharesAt_cons (kv : Nat × Order) (m : OrdMap) (p : Nat) :
    sumSharesAt (kv :: m) p =
      (if kv.2.price = p then kv.2.shares else 0) + sumSharesAt m p := by
  simp [sumSharesAt]

theorem sumSharesAt_append (m₁ m₂ : OrdMap) (p : Nat) :
    sumSharesAt (m₁ ++ m₂) p = sumSharesAt m₁ p + sumSharesAt m₂ p := by
  simp [sumSharesAt]

theorem findOrd_mem {m : OrdMap} {k : Nat} {o : Order}
    (h : findOrd m k = some o) : (k, o) ∈ m := by
  induction m with
  | nil => simp [findOrd] at h
  | cons kv t ih =>
    rw [findOrd] at h
    split at h
    · rename_i heq
      obtain rfl : kv.2 = o := by simpa using h
      obtain ⟨k', o'⟩ := kv
      simp_all
    · exact List.mem_cons_of_mem _ (ih h)

theorem insertOrd_of_findOrd_none {m : OrdMap} {k : Nat} (o : Order)
    (h : findOrd m k = none) : insertOrd m k o = m ++ [(k, o)] := by
  induction m with
  | nil => rfl
  | cons kv t ih =>
    obtain ⟨k', o'⟩ := kv
    rw [findOrd] at h
    rw [insertOrd]
    split at h
    · exact absurd h (by simp)
    · rename_i hne
      simp only [if_neg hne, List.cons_append, List.cons.injEq, true_and]
      exact ih h

theorem findOrd_decomp {m : OrdMap} {k : Nat} {o : Order}
    (h : findOrd m k = some o) :
    ∃ l₁ l₂, m = l₁ ++ (k, o) :: l₂ ∧ ∀ kv ∈ l₁, kv.1 ≠ k := by
  induction m with
  | nil => simp [findOrd] at h
  | cons kv t ih =>
    obtain ⟨k', o'⟩ := kv
    rw [findOrd] at h
    split at h
    · rename_i heq
      obtain rfl : o' = o := by simpa using h
      subst heq
      exact ⟨[], t, rfl, by simp⟩
    · rename_i hne
      obtain ⟨l₁, l₂, rfl, hl₁⟩ := ih h
      refine ⟨(k', o') :: l₁, l₂, rfl, ?_⟩
      intro kv hkv
      rcases List.mem_cons.mp hkv with rfl | hkv
      · exact hne
      · exact hl₁ kv hkv

theorem eraseOrd_append (l₁ l₂ : OrdMap) (k : Nat) (o : Order)
    (hl₁ : ∀ kv ∈ l₁, kv.1 ≠ k) :
    eraseOrd (l₁ ++ (k, o) :: l₂) k = l₁ ++ l₂ := by
  induction l₁ with
  | nil => simp [eraseOrd]
  | cons kv t ih =>
    obtain ⟨k', o'⟩ := kv
    have hne : k' ≠ k := hl₁ (k', o') (List.mem_cons_self _ _)
    rw [List.cons_append, eraseOrd, if_neg hne]
    simp only [List.cons_append, List.cons.injEq, true_and]
    exact ih (fun kv hkv => hl₁ kv (List.mem_cons_of_mem _ hkv))

theorem insertOrd_append (l₁ l₂ : OrdMap) (k : Nat) (o o' : Order)
    (hl₁ : ∀ kv ∈ l₁, kv.1 ≠ k) :
    insertOrd (l₁ ++ (k, o) :: l₂) k o' = l₁ ++ (k, o') :: l₂ := by
  induction l₁ with
  | nil => simp [insertOrd]
  | cons kv t ih =>
    obtain ⟨k'', o''⟩ := kv
    have hne : k'' ≠ k := hl₁ (k'', o'') (List.mem_cons_self _ _)
    rw [List.cons_append, insertOrd, if_neg hne]
    simp only [List.cons_append, List.cons.injEq, true_and]
    exact ih (fun kv hkv => hl₁ kv (List.mem_cons_of_mem _ hkv))

theorem findOrd_insertOrd (m : OrdMap) (k : Nat) (o : Order) (q : Nat) :
    findOrd (insertOrd m k o) q = if k = q then some o else findOrd m q := by
  induction m with
  | nil => rfl
  | cons kv t ih =>
    obtain ⟨k', o'⟩ := kv
    rw [insertOrd]
    by_cases hk : k' = k
    · subst hk
      simp only [if_pos rfl, findOrd]
      by_cases hq : k' = q <;> simp [hq]
    · rw [if_neg hk, findOrd, findOrd, ih]
      by_cases hq : k' = q
      · subst hq
        rw [if_pos rfl, if_pos rfl, if_neg (fun h => hk h.symm)]
      · rw [if_neg hq, if_neg hq]

theorem findOrd_eraseOrd_ne {m : OrdMap} {k q : Nat} (h : q ≠ k) :
    findOrd (eraseOrd m k) q = findOrd m q := by
  induction m with
  | nil => rfl
  | cons kv t ih =>
    obtain ⟨k', o'⟩ := kv
    rw [eraseOrd]
    by_cases hk : k' = k
    · rw [if_pos hk, findOrd, if_neg (by rw [hk]; exact fun hh => h hh.symm)]
    · rw [if_neg hk, findOrd, findOrd, ih]

theorem findOrd_eq_none {m : OrdMap} {k : Nat}
    (h : k ∉ m.map Prod.fst) : findOrd m k = none := by
  induction m with
  | nil => rfl
  | cons kv t ih =>
    obtain ⟨k', o'⟩ := kv
    simp only [List.map_cons, List.mem_cons] at h
    push_neg at h
    rw [findOrd, if_neg (fun hh => h.1 hh.symm)]
    exact ih h.2

theorem findOrd_eraseOrd_self {m : OrdMap} {k : Nat}
    (hnd : (m.map Prod.fst).Nodup) : findOrd (eraseOrd m k) k = none := by
  induction m with
  | nil => rfl
  | cons kv t ih =>
    obtain ⟨k', o'⟩ := kv
    simp only [List.map_cons, List.nodup_cons] at hnd
    rw [eraseOrd]
    by_cases hk : k' = k
    · subst hk
      simp only [if_pos rfl]
      exact findOrd_eq_none hnd.1
    · rw [if_neg hk, findOrd, if_neg hk]
      exact ih hnd.2

theorem mem_insertOrd {m : OrdMap} {k : Nat} {o : Order} {x : Nat × Order}
    (h : x ∈ insertOrd m k o) : x ∈ m ∨ x = (k, o) := by
  induction m with
  | nil =>
    simp only [insertOrd, List.mem_singleton] at h
    exact Or.inr h
  | cons kv t ih =>
    rw [insertOrd] at h
    split at h
    · rcases List.mem_cons.mp h with rfl | hx
      · exact Or.inr rfl
      · exact Or.inl (List.mem_cons_of_mem _ hx)
    · rcases List.mem_cons.mp h with rfl | hx
      · exact Or.inl (List.mem_cons_self _ _)
      · rcases ih hx with hx' | hx'
        · exact Or.inl (List.mem_cons_of_mem _ hx')
        · exact Or.inr hx'

theorem mem_eraseOrd {m : OrdMap} {k : Nat} {x : Nat × Order}
    (h : x ∈ eraseOrd m k) : x ∈ m := by
  induction m with
  | nil => simp [eraseOrd] at h
  | cons kv t ih =>
    rw [eraseOrd] at h
    split at h
    · exact List.mem_cons_of_mem _ h
    · rcases List.mem_cons.mp h with rfl | hx
      · exact List.mem_cons_self _ _
      · exact List.mem_cons_of_mem _ (ih hx)

end Itch

namespace Itch

/-! ## Sorted-map lemmas for the price maps -/

/-- The `BTreeMap` representation invariant: keys strictly ascending. -/
def PMSorted (m : PriceMap) : Prop :=
  List.Pairwise (fun a b => a.1 < b.1) m

theorem PMSorted_nil : PMSorted [] := List.Pairwise.nil

theorem findPL_eq_none {m : PriceMap} {p : Nat}
    (h : ∀ kv ∈ m, kv.1 ≠ p) : findPL m p = none := by
  induction m with
  | nil => rfl
  | cons kv t ih =>
    obtain ⟨q, w⟩ := kv
    rw [findPL, if_neg (h (q, w) (List.mem_cons_self _ _))]
    exact ih (fun kv hkv => h kv (List.mem_cons_of_mem _ hkv))

theorem findPL_of_mem {m : PriceMap} {kv : Nat × Nat}
    (hs : PMSorted m) (h : kv ∈ m) : findPL m kv.1 = some kv.2 := by
  induction m with
  | nil => simp at h
  | cons kv' t ih =>
    obtain ⟨q, w⟩ := kv'
    rcases List.mem_cons.mp h with rfl | h'
    · rw [findPL, if_pos rfl]
    · have hlt : q < kv.1 := (List.pairwise_cons.mp hs).1 kv h'
      rw [findPL, if_neg (Nat.ne_of_lt hlt)]
      exact ih (List.pairwise_cons.mp hs).2 h'

theorem keys_addVolume {m : PriceMap} {p v : Nat} {x : Nat × Nat}
    (h : x ∈ addVolume m p v) : x.1 = p ∨ x.1 ∈ m.map Prod.fst := by
  induction m with
  | nil =>
    simp only [addVolume, List.mem_singleton] at h
    exact Or.inl (by rw [h])
  | cons kv t ih =>
    obtain ⟨q, w⟩ := kv
    rw [addVolume] at h
    split at h
    · rcases List.mem_cons.mp h with rfl | h'
      · exact Or.inl rfl
      · exact Or.inr (by simpa using List.mem_map_of_mem Prod.fst h')
    · split at h
      · rcases List.mem_cons.mp h with rfl | h'
        · exact Or.inl rfl
        · exact Or.inr (by simp [List.mem_map_of_mem Prod.fst h'])
      · rcases List.mem_cons.mp h with rfl | h'
        · exact Or.inr (by simp)
        · rcases ih h' with h'' | h''
          · exact Or.inl h''
          · exact Or.inr (by simp [h''])

theorem PMSorted_addVolume {m : PriceMap} (p v : Nat)
    (hs : PMSorted m) : PMSorted (addVolume m p v) := by
  induction m with
  | nil => simp [addVolume, PMSorted]
  | cons kv t ih =>
    obtain ⟨q, w⟩ := kv
    obtain ⟨hhead, htail⟩ := List.pairwise_cons.mp hs
    rw [addVolume]
    split
    · rename_i hlt
      refine List.pairwise_cons.mpr ⟨?_, hs⟩
      intro kv hkv
      rcases List.mem_cons.mp hkv with rfl | hkv'
      · exact hlt
      · exact hlt.trans (hhead kv hkv')
    · split
      · rename_i hlt heq
        subst heq
        exact List.pairwise_cons.mpr ⟨hhead, htail⟩
      · rename_i hlt hne
        have hgt : q < p := by omega
        refine List.pairwise_cons.mpr ⟨?_, ih htail⟩
        intro kv hkv
        rcases keys_addVolume hkv with h' | h'
        · omega
        · obtain ⟨kv', hkv', hfst⟩ := List.mem_map.mp h'
          have := hhead kv' hkv'
          omega

theorem findPL_addVolume {m : PriceMap} (p v q : Nat) (hs : PMSorted m) :
    findPL (addVolume m p v) q =
      if p = q then some ((findPLD m p + v) % 4294967296) else findPL m q := by
  induction m with
  | nil =>
    by_cases hq : p = q <;> simp [addVolume, findPL, findPLD, hq]
  | cons kv t ih =>
    obtain ⟨q', w⟩ := kv
    obtain ⟨hhead, htail⟩ := List.pairwise_cons.mp hs
    rw [addVolume]
    split
    · rename_i hlt
      have habs : findPL ((q', w) :: t) p = none := by
        refine findPL_eq_none ?_
        intro kv hkv
        rcases List.mem_cons.mp hkv with rfl | hkv'
        · omega
        · have := hhead kv hkv'
          omega
      by_cases hq : p = q
      · subst hq
        rw [findPL, if_pos rfl, if_pos rfl]
        simp [findPLD, habs]
      · rw [findPL, if_neg hq, if_neg hq]
    · split
      · rename_i hlt heq
        subst heq
        by_cases hq : p = q
        · subst hq
          rw [findPL, if_pos rfl, if_pos rfl]
          simp [findPLD, findPL]
        · rw [findPL, if_neg hq, if_neg hq, findPL, if_neg hq]
      · rename_i hlt hne
        have hgt : q' < p := by omega
        by_cases hq : p = q
        · subst hq
          rw [findPL, if_neg (Nat.ne_of_lt hgt), if_pos rfl, ih htail, if_pos rfl]
          have : findPLD ((q', w) :: t) p = findPLD t p := by
            simp [findPLD, findPL, if_neg (Nat.ne_of_lt hgt)]
          rw [this]
        · rw [if_neg hq, findPL, findPL, ih htail, if_neg hq]

theorem keys_decVolume {m : PriceMap} {p amt : Nat} {x : Nat × Nat}
    (h : x ∈ decVolume m p amt) : x.1 ∈ m.map Prod.fst := by
  induction m with
  | nil => simp [decVolume] at h
  | cons kv t ih =>
    obtain ⟨q, w⟩ := kv
    rw [decVolume] at h
    split at h
    · split at h
      · exact List.mem_cons_of_mem _ (List.mem_map_of_mem Prod.fst h)
      · rcases List.mem_cons.mp h with rfl | h'
        · simp
        · exact List.mem_cons_of_mem _ (List.mem_map_of_mem Prod.fst h')
    · rcases List.mem_cons.mp h with rfl | h'
      · simp
      · exact List.mem_cons_of_mem _ (ih h')

theorem PMSorted_decVolume {m : PriceMap} (p amt : Nat)
    (hs : PMSorted m) : PMSorted (decVolume m p amt) := by
  induction m with
  | nil => exact hs
  | cons kv t ih =>
    obtain ⟨q, w⟩ := kv
    obtain ⟨hhead, htail⟩ := List.pairwise_cons.mp hs
    rw [decVolume]
    split
    · split
      · exact htail
      · exact List.pairwise_cons.mpr ⟨hhead, htail⟩
    · refine List.pairwise_cons.mpr ⟨?_, ih htail⟩
      intro kv hkv
      obtain ⟨kv', hkv', hfst⟩ := List.mem_map.mp (keys_decVolume hkv)
      have := hhead kv' hkv'
      omega

theorem findPL_decVolume {m : PriceMap} (p amt q : Nat) (hs : PMSorted m) :
    findPL (decVolume m p amt) q =
      if p = q then
        match findPL m p with
        | none => none
        | some w => if w - amt = 0 then none else some (w - amt)
      else findPL m q := by
  induction m with
  | nil =>
    by_cases hq : p = q <;> simp [decVolume, findPL, hq]
  | cons kv t ih =>
    obtain ⟨q', w⟩ := kv
    obtain ⟨hhead, htail⟩ := List.pairwise_cons.mp hs
    rw [decVolume]
    by_cases hk : q' = p
    · subst hk
      rw [if_pos rfl]
      have habs : findPL t q' = none := by
        refine findPL_eq_none ?_
        intro kv hkv
        have := hhead kv hkv
        omega
      split
      · rename_i hz
        by_cases hq : q' = q
        · subst hq
          rw [if_pos rfl, findPL, if_pos rfl, habs]
          simp [hz]
        · rw [if_neg hq, findPL, if_neg hq]
      · rename_i hz
        by_cases hq : q' = q
        · subst hq
          rw [findPL, if_pos rfl, if_pos rfl, findPL, if_pos rfl]
          simp [hz]
        · rw [findPL, if_neg hq, if_neg hq, findPL, if_neg hq]
    · rw [if_neg hk]
      by_cases hq : q' = q
      · subst hq
        rw [findPL, if_pos rfl, if_neg (fun h => hk h.symm), findPL, if_pos rfl]
      · rw [findPL, if_neg hq, ih htail]
        by_cases hp : p = q <;> simp [hp, findPL, hk, hq]

end Itch

namespace Itch

/-! ## The level-volume invariant -/

/-- Inductive form of the level-volume invariant: for *every* price, the
    stored volume (0 when the key is absent) equals the sum of resting
    shares at that price. -/
def levelsAgree (orders : OrdMap) (pm : PriceMap) : Prop :=
  ∀ p : Nat, findPLD pm p = sumSharesAt orders p

/-- The invariant exactly as claimed: every price *present* in the level
    map stores the sum of the shares of the orders resting at it. -/
def levelsConsistent (orders : OrdMap) (pm : PriceMap) : Prop :=
  ∀ pv ∈ pm, pv.2 = sumSharesAt orders pv.1

instance (orders : OrdMap) (pm : PriceMap) :
    Decidable (levelsConsistent orders pm) :=
  List.decidableBAll _ pm

theorem levelsConsistent_of_levelsAgree {orders : OrdMap} {pm : PriceMap}
    (hs : PMSorted pm) (hA : levelsAgree orders pm) :
    levelsConsistent orders pm := by
  intro pv hpv
  have h1 := findPL_of_mem hs hpv
  have h2 := hA pv.1
  rw [findPLD, h1] at h2
  simpa using h2

/-- Effect of `add_order`'s map updates on the invariant, for a fresh
    reference whose level volume does not overflow. -/
theorem levelsAgree_addOrder {orders : OrdMap} {pm : PriceMap} {r : Nat} {o : Order}
    (hs : PMSorted pm) (hA : levelsAgree orders pm)
    (hfresh : findOrd orders r = none)
    (hfit : findPLD pm o.price + o.shares < 4294967296) :
    levelsAgree (insertOrd orders r o) (addVolume pm o.price o.shares) := by
  intro p
  rw [insertOrd_of_findOrd_none o hfresh, sumSharesAt_append]
  have hsingle : sumSharesAt [(r, o)] p = if o.price = p then o.shares else 0 := by
    simp [sumSharesAt]
  rw [hsingle]
  unfold findPLD
  rw [findPL_addVolume _ _ _ hs]
  by_cases hp : o.price = p
  · subst hp
    rw [if_pos rfl, if_pos rfl, Option.getD_some, Nat.mod_eq_of_lt hfit]
    have h2 := hA o.price
    omega
  · rw [if_neg hp, if_neg hp]
    have h2 := hA p
    rw [findPLD] at h2
    omega

/-- Effect of the execute/cancel map updates on the invariant, when the
    decremented amount does not exceed the order's remaining shares. -/
theorem levelsAgree_exec {orders : OrdMap} {pm : PriceMap} {k : Nat} {o : Order}
    (amt : Nat) (hs : PMSorted pm) (hA : levelsAgree orders pm)
    (hf : findOrd orders k = some o) (hamt : amt ≤ o.shares) :
    levelsAgree
      (if o.shares - amt = 0
        then eraseOrd (insertOrd orders k { o with shares := o.shares - amt }) k
        else insertOrd orders k { o with shares := o.shares - amt })
      (decVolume pm o.price amt) := by
  obtain ⟨l₁, l₂, rfl, hl₁⟩ := findOrd_decomp hf
  have hins := insertOrd_append l₁ l₂ k o { o with shares := o.shares - amt } hl₁
  have hers := eraseOrd_append l₁ l₂ k { o with shares := o.shares - amt } hl₁
  intro p
  have hAp := hA p
  rw [sumSharesAt_append, sumSharesAt_cons, findPLD] at hAp
  unfold findPLD
  rw [findPL_decVolume _ _ _ hs]
  by_cases hp : o.price = p
  · subst hp
    rw [if_pos rfl] at hAp
    rw [if_pos rfl]
    cases hw : findPL pm o.price with
    | none =>
      rw [hw] at hAp
      simp only [Option.getD_none] at hAp
      have hz : o.shares - amt = 0 := by omega
      rw [if_pos hz, hins, hers, sumSharesAt_append]
      simp only [Option.getD_none]
      omega
    | some w =>
      rw [hw] at hAp
      simp only [Option.getD_some] at hAp
      by_cases hz : o.shares - amt = 0
      · rw [if_pos hz, hins, hers, sumSharesAt_append]
        by_cases hwz : w - amt = 0 <;>
          simp only [hwz, reduceIte, Option.getD_none, Option.getD_some] <;> omega
      · rw [if_neg hz, hins, sumSharesAt_append, sumSharesAt_cons]
        simp only [if_pos rfl]
        by_cases hwz : w - amt = 0 <;>
          simp only [hwz, reduceIte, Option.getD_none, Option.getD_some] <;> omega
  · rw [if_neg hp] at hAp
    rw [if_neg hp]
    by_cases hz : o.shares - amt = 0
    · rw [if_pos hz, hins, hers, sumSharesAt_append]
      omega
    · rw [if_neg hz, hins, sumSharesAt_append, sumSharesAt_cons]
      simp only [if_neg hp]
      omega

/-- Effect of the delete (and the removal phase of replace) on the
    invariant: the full remaining shares of the found order leave its
    level; no precondition is needed. -/
theorem levelsAgree_delete {orders : OrdMap} {pm : PriceMap} {k : Nat} {o : Order}
    (hs : PMSorted pm) (hA : levelsAgree orders pm)
    (hf : findOrd orders k = some o) :
    levelsAgree (eraseOrd orders k) (decVolume pm o.price o.shares) := by
  obtain ⟨l₁, l₂, rfl, hl₁⟩ := findOrd_decomp hf
  have hers := eraseOrd_append l₁ l₂ k o hl₁
  intro p
  have hAp := hA p
  rw [sumSharesAt_append, sumSharesAt_cons, findPLD] at hAp
  unfold findPLD
  rw [findPL_decVolume _ _ _ hs, hers, sumSharesAt_append]
  by_cases hp : o.price = p
  · subst hp
    rw [if_pos rfl] at hAp
    rw [if_pos rfl]
    cases hw : findPL pm o.price with
    | none =>
      rw [hw] at hAp
      simp only [Option.getD_none] at hAp ⊢
      omega
    | some w =>
      rw [hw] at hAp
      simp only [Option.getD_some] at hAp
      by_cases hwz : w - o.shares = 0 <;> simp only [hwz, reduceIte, Option.getD_none,
        Option.getD_some] <;> omega
  · rw [if_neg hp] at hAp
    rw [if_neg hp]
    omega

end Itch

namespace Itch

/-! ## Engine-level invariants and event preconditions -/

/-- Side-indexed view of the two order maps. -/
def ordersOf (b : OrderBook) (s : Side) : OrdMap :=
  match s with
  | Side.Buy => b.buy_orders
  | Side.Sell => b.sell_orders

/-- Side-indexed view of the two price maps. -/
def levelsOf (b : OrderBook) (s : Side) : PriceMap :=
  match s with
  | Side.Buy => b.buy_price_map
  | Side.Sell => b.sell_price_map

def otherSide : Side → Side
  | Side.Buy => Side.Sell
  | Side.Sell => Side.Buy

/-- The Buy-then-Sell reference lookup shared by the E/C/X/D/U handlers. -/
def findOrder2 (b : OrderBook) (r : Nat) : Option (Side × Order) :=
  match findOrd b.buy_orders r with
  | some o => some (Side.Buy, o)
  | none =>
    match findOrd b.sell_orders r with
    | some o => some (Side.Sell, o)
    | none => none

/-- Orders stored in the Buy map carry side `Buy`, and symmetrically. -/
def sideOk (b : OrderBook) : Prop :=
  (∀ kv ∈ b.buy_orders, kv.2.side = Side.Buy) ∧
  (∀ kv ∈ b.sell_orders, kv.2.side = Side.Sell)

/-- The inductive invariant: sorted price maps, the per-side level-volume
    agreement, and side-consistent order maps. -/
def AuxInv (b : OrderBook) : Prop :=
  PMSorted b.buy_price_map ∧ PMSorted b.sell_price_map ∧
  levelsAgree b.buy_orders b.buy_price_map ∧
  levelsAgree b.sell_orders b.sell_price_map ∧ sideOk b

/-- Well-formedness of an Add event against the current state: if the
    symbol matches, the reference is fresh on its side and the target
    level volume does not overflow `u32`. -/
def preAddB (b : OrderBook) (data : List Nat) : Bool :=
  if read_stock data 23 = b.symbol then
    decide (findOrd (ordersOf b (Side.ofByte (byteAt data 18)))
      (read_order_ref_be data 10) = none) &&
    decide (findPLD (levelsOf b (Side.ofByte (byteAt data 18)))
      (read_u32_be data 31) + read_u32_be data 19 < 4294967296)
  else true

/-- Well-formedness of an execute/cancel event: if the reference
    resolves, the decremented amount is at most the remaining shares. -/
def preExecB (b : OrderBook) (data : List Nat) : Bool :=
  match findOrder2 b (read_order_ref_be data 10) with
  | some so => decide (read_u32_be data 18 ≤ so.2.shares)
  | none => true

/-- Well-formedness of a replace event: if the original reference
    resolves, the new reference is fresh on that side once the original
    is removed, and the new level volume does not overflow `u32`. -/
def preReplaceB (b : OrderBook) (data : List Nat) : Bool :=
  match findOrder2 b (read_order_ref_be data 10) with
  | some so =>
    decide (findOrd (eraseOrd (ordersOf b so.1) (read_order_ref_be data 10))
      (read_order_ref_be data 18) = none) &&
    decide (findPLD (decVolume (levelsOf b so.1) so.2.price so.2.shares)
      (read_u32_be data 30) + read_u32_be data 26 < 4294967296)
  | none => true

/-- Event well-formedness, dispatched on the message type. -/
def pre (b : OrderBook) (mt : MessageType) (data : List Nat) : Bool :=
  match mt with
  | MessageType.AddOrder | MessageType.AddOrderWithMpid => preAddB b data
  | MessageType.OrderExecuted | MessageType.OrderExecutedWithPrice
  | MessageType.OrderCancel => preExecB b data
  | MessageType.OrderReplace => preReplaceB b data
  | _ => true

theorem handle_add_order_with_mpid_eq :
    handle_add_order_with_mpid = handle_add_order := rfl

theorem handle_order_executed_with_price_eq :
    handle_order_executed_with_price = handle_order_executed := rfl

theorem handle_order_cancel_eq :
    handle_order_cancel = handle_order_executed := rfl

theorem handle_trade_eq (b : OrderBook) (data : List Nat) :
    handle_trade b data = b := by
  simp [handle_trade]

theorem sideOk_ifErase {m : OrdMap} {k : Nat} {o' : Order} {s : Side}
    (c : Prop) [Decidable c]
    (hm : ∀ kv ∈ m, kv.2.side = s) (ho' : o'.side = s) :
    ∀ kv ∈ (if c then eraseOrd (insertOrd m k o') k else insertOrd m k o'),
      kv.2.side = s := by
  intro kv hkv
  split at hkv
  · rcases mem_insertOrd (mem_eraseOrd hkv) with hold | rfl
    · exact hm kv hold
    · exact ho'
  · rcases mem_insertOrd hkv with hold | rfl
    · exact hm kv hold
    · exact ho'

/-- `add_order` preserves the invariant when the reference is fresh and
    the level volume fits. -/
theorem AuxInv_add_order {b : OrderBook} {o : Order}
    (h : AuxInv b)
    (hfresh : findOrd (ordersOf b o.side) o.ref_number = none)
    (hfit : findPLD (levelsOf b o.side) o.price + o.shares < 4294967296) :
    AuxInv (add_order b o) := by
  obtain ⟨hs1, hs2, hA1, hA2, hside1, hside2⟩ := h
  unfold add_order
  by_cases hbs : o.side = Side.Buy
  · rw [if_pos hbs]
    rw [hbs] at hfresh hfit
    refine ⟨PMSorted_addVolume _ _ hs1, hs2,
      levelsAgree_addOrder hs1 hA1 hfresh hfit, hA2, ?_, hside2⟩
    intro kv hkv
    rcases mem_insertOrd hkv with hold | rfl
    · exact hside1 kv hold
    · exact hbs
  · have hss : o.side = Side.Sell := by
      cases hcs : o.side
      · exact absurd hcs hbs
      · rfl
    rw [if_neg hbs]
    rw [hss] at hfresh hfit
    refine ⟨hs1, PMSorted_addVolume _ _ hs2, hA1,
      levelsAgree_addOrder hs2 hA2 hfresh hfit, hside1, ?_⟩
    intro kv hkv
    rcases mem_insertOrd hkv with hold | rfl
    · exact hside2 kv hold
    · exact hss

theorem AuxInv_handle_add_order {b : OrderBook} {data : List Nat} {ts : Nat}
    (h : AuxInv b) (hpre : preAddB b data = true) :
    AuxInv (handle_add_order b data ts) := by
  unfold handle_add_order
  by_cases hg : read_stock data 23 = b.symbol
  · rw [if_neg (not_not_intro hg)]
    unfold preAddB at hpre
    rw [if_pos hg] at hpre
    simp only [Bool.and_eq_true, decide_eq_true_eq] at hpre
    exact AuxInv_add_order h hpre.1 hpre.2
  · rw [if_pos hg]
    exact h

theorem AuxInv_handle_order_executed {b : OrderBook} {data : List Nat} {ts : Nat}
    (h : AuxInv b) (hpre : preExecB b data = true) :
    AuxInv (handle_order_executed b data ts) := by
  obtain ⟨hs1, hs2, hA1, hA2, hside1, hside2⟩ := h
  cases hb : findOrd b.buy_orders (read_order_ref_be data 10) with
  | some o =>
    have hf2 : findOrder2 b (read_order_ref_be data 10) = some (Side.Buy, o) := by
      simp [findOrder2, hb]
    have hamt : read_u32_be data 18 ≤ o.shares := by
      unfold preExecB at hpre
      rw [hf2] at hpre
      simpa using hpre
    simp only [handle_order_executed, hb]
    exact ⟨PMSorted_decVolume _ _ hs1, hs2,
      levelsAgree_exec (read_u32_be data 18) hs1 hA1 hb hamt, hA2,
      sideOk_ifErase _ hside1 (hside1 _ (findOrd_mem hb)), hside2⟩
  | none =>
    cases hbs : findOrd b.sell_orders (read_order_ref_be data 10) with
    | some o =>
      have hf2 : findOrder2 b (read_order_ref_be data 10) = some (Side.Sell, o) := by
        simp [findOrder2, hb, hbs]
      have hamt : read_u32_be data 18 ≤ o.shares := by
        unfold preExecB at hpre
        rw [hf2] at hpre
        simpa using hpre
      simp only [handle_order_executed, hb, hbs]
      exact ⟨hs1, PMSorted_decVolume _ _ hs2, hA1,
        levelsAgree_exec (read_u32_be data 18) hs2 hA2 hbs hamt,
        hside1, sideOk_ifErase _ hside2 (hside2 _ (findOrd_mem hbs))⟩
    | none =>
      simp only [handle_order_executed, hb, hbs]
      exact ⟨hs1, hs2, hA1, hA2, hside1, hside2⟩

theorem AuxInv_handle_order_delete {b : OrderBook} {data : List Nat} {ts : Nat}
    (h : AuxInv b) : AuxInv (handle_order_delete b data ts) := by
  obtain ⟨hs1, hs2, hA1, hA2, hside1, hside2⟩ := h
  cases hb : findOrd b.buy_orders (read_order_ref_be data 10) with
  | some entry =>
    simp only [handle_order_delete, hb]
    refine ⟨PMSorted_decVolume _ _ hs1, hs2,
      levelsAgree_delete hs1 hA1 hb, hA2, ?_, hside2⟩
    intro kv hkv
    exact hside1 kv (mem_eraseOrd hkv)
  | none =>
    cases hbs : findOrd b.sell_orders (read_order_ref_be data 10) with
    | some entry =>
      simp only [handle_order_delete, hb, hbs]
      refine ⟨hs1, PMSorted_decVolume _ _ hs2, hA1,
        levelsAgree_delete hs2 hA2 hbs, hside1, ?_⟩
      intro kv hkv
      exact hside2 kv (mem_eraseOrd hkv)
    | none =>
      simp only [handle_order_delete, hb, hbs]
      exact ⟨hs1, hs2, hA1, hA2, hside1, hside2⟩

theorem AuxInv_handle_order_replace {b : OrderBook} {data : List Nat} {ts : Nat}
    (h : AuxInv b) (hpre : preReplaceB b data = true) :
    AuxInv (handle_order_replace b data ts) := by
  obtain ⟨hs1, hs2, hA1, hA2, hside1, hside2⟩ := h
  cases hb : findOrd b.buy_orders (read_order_ref_be data 10) with
  | some o =>
    have hf2 : findOrder2 b (read_order_ref_be data 10) = some (Side.Buy, o) := by
      simp [findOrder2, hb]
    have ho : o.side = Side.Buy := hside1 _ (findOrd_mem hb)
    unfold preReplaceB at hpre
    rw [hf2] at hpre
    simp only [Bool.and_eq_true, decide_eq_true_eq] at hpre
    simp only [handle_order_replace, hb]
    rw [if_pos ho]
    refine AuxInv_add_order ⟨PMSorted_decVolume _ _ hs1, hs2,
      levelsAgree_delete hs1 hA1 hb, hA2, ?_, hside2⟩ ?_ ?_
    · intro kv hkv
      exact hside1 kv (mem_eraseOrd hkv)
    · rw [ho]
      exact hpre.1
    · rw [ho]
      exact hpre.2
  | none =>
    cases hbs : findOrd b.sell_orders (read_order_ref_be data 10) with
    | some o =>
      have hf2 : findOrder2 b (read_order_ref_be data 10) = some (Side.Sell, o) := by
        simp [findOrder2, hb, hbs]
      have ho : o.side = Side.Sell := hside2 _ (findOrd_mem hbs)
      unfold preReplaceB at hpre
      rw [hf2] at hpre
      simp only [Bool.and_eq_true, decide_eq_true_eq] at hpre
      simp only [handle_order_replace, hb, hbs]
      rw [if_neg (by rw [ho]; intro hc; exact Side.noConfusion hc)]
      refine AuxInv_add_order ⟨hs1, PMSorted_decVolume _ _ hs2, hA1,
        levelsAgree_delete hs2 hA2 hbs, hside1, ?_⟩ ?_ ?_
      · intro kv hkv
        exact hside2 kv (mem_eraseOrd hkv)
      · rw [ho]
        exact hpre.1
      · rw [ho]
        exact hpre.2
    | none =>
      simp only [handle_order_replace, hb, hbs]
      exact ⟨hs1, hs2, hA1, hA2, hside1, hside2⟩

theorem AuxInv_handle_message {b : OrderBook} {mt : MessageType}
    {data : List Nat} {ts : Nat}
    (h : AuxInv b) (hpre : pre b mt data = true) :
    AuxInv (handle_message b mt data ts) := by
  have h' : AuxInv { b with message_count := b.message_count + 1 } := h
  cases mt <;> simp only [handle_message, pre] at hpre ⊢
  case AddOrder => exact AuxInv_handle_add_order h' hpre
  case AddOrderWithMpid =>
    rw [handle_add_order_with_mpid_eq]
    exact AuxInv_handle_add_order h' hpre
  case OrderExecuted => exact AuxInv_handle_order_executed h' hpre
  case OrderExecutedWithPrice =>
    rw [handle_order_executed_with_price_eq]
    exact AuxInv_handle_order_executed h' hpre
  case OrderCancel =>
    rw [handle_order_cancel_eq]
    exact AuxInv_handle_order_executed h' hpre
  case OrderDelete => exact AuxInv_handle_order_delete h'
  case OrderReplace => exact AuxInv_handle_order_replace h' hpre
  case Trade =>
    rw [handle_trade_eq]
    exact h'
  all_goals exact h'

end Itch

namespace Itch

/-! ## Event traces -/

/-- One dispatched message: type, payload span, extracted timestamp. -/
structure InputEvent where
  mtype : MessageType
  data : List Nat
  ts : Nat
deriving Repr, DecidableEq

/-- One engine step: `handle_message` on an event. -/
def step (b : OrderBook) (e : InputEvent) : OrderBook :=
  handle_message b e.mtype e.data e.ts

/-- Run the engine over a list of events. -/
def run (b : OrderBook) (es : List InputEvent) : OrderBook :=
  es.foldl step b

/-- A trace is well-formed when every event satisfies `pre` in the state
    it is applied to. -/
def wfTraceB (b : OrderBook) (es : List InputEvent) : Bool :=
  match es with
  | [] => true
  | e :: t => pre b e.mtype e.data && wfTraceB (step b e) t

theorem AuxInv_init (symbol : List Nat) : AuxInv (OrderBook.init symbol) := by
  refine ⟨PMSorted_nil, PMSorted_nil, fun p => rfl, fun p => rfl, ?_, ?_⟩ <;>
    intro kv hkv <;> simp [OrderBook.init] at hkv

theorem AuxInv_run {b : OrderBook} {es : List InputEvent}
    (h : AuxInv b) (hwf : wfTraceB b es = true) : AuxInv (run b es) := by
  induction es generalizing b with
  | nil => exact h
  | cons e t ih =>
    simp only [wfTraceB, Bool.and_eq_true] at hwf
    simp only [run, List.foldl_cons]
    exact ih (AuxInv_handle_message h hwf.1) hwf.2

end Itch

namespace Itch

/-! ## Concrete feed material used by witnesses and counterexamples -/

/-- The 8-byte symbol "INTC    ". -/
def csym : List Nat := [73, 78, 84, 67, 32, 32, 32, 32]

/-- Add Order payload: ref 1, side B, 100 shares, stock "INTC    ",
    price 500000. -/
def cadd1 : List Nat :=
  [0,0,0,0,0,0,0,0,0,0, 0,0,0,0,0,0,0,1, 66, 0,0,0,100] ++ csym ++ [0,7,161,32]

/-- Add Order payload reusing ref 1: side B, 50 shares, price 500000. -/
def cadd1dup : List Nat :=
  [0,0,0,0,0,0,0,0,0,0, 0,0,0,0,0,0,0,1, 66, 0,0,0,50] ++ csym ++ [0,7,161,32]

/-- Order Executed payload: ref 1, 30 executed shares. -/
def cexec1 : List Nat :=
  [0,0,0,0,0,0,0,0,0,0, 0,0,0,0,0,0,0,1, 0,0,0,30]

/-- A well-formed two-event trace: add ref 1, then execute 30 of it. -/
def ctrace : List InputEvent :=
  [⟨MessageType.AddOrder, cadd1, 7⟩, ⟨MessageType.OrderExecuted, cexec1, 9⟩]

/-! ## Claim C1 — level-volume consistency -/

/-- C1 (counterexample).  The claim as stated fails on the code: two Add
    events carrying the *same* reference number overwrite the order in
    the map (`HashMap::insert`) while `add_order` adds the new shares to
    the level volume a second time.  After adding ref 1 with 100 shares
    and then ref 1 again with 50 shares at price 500000, the stored
    level volume is 150 but the orders at that price sum to 50. -/
theorem c1_counterexample :
    ¬ levelsConsistent
        (handle_message (handle_message (OrderBook.init csym)
          MessageType.AddOrder cadd1 7) MessageType.AddOrder cadd1dup 8).buy_orders
        (handle_message (handle_message (OrderBook.init csym)
          MessageType.AddOrder cadd1 7) MessageType.AddOrder cadd1dup 8).buy_price_map := by
  decide

/-- C1 (amended).  Level-volume consistency holds after every event of
    any trace from the initial book that is well-formed in the sense of
    `pre`: Add events use a reference that is fresh on their side and do
    not overflow the target level's `u32` volume; execute/cancel amounts
    do not exceed the referenced order's remaining shares; Replace uses
    a new reference that is fresh once the original is removed, without
    overflow.  Then for each side every price present in the level map
    stores exactly the sum of the resting shares at that price. -/
theorem c1_level_volume_invariant (symbol : List Nat) (es : List InputEvent)
    (h : wfTraceB (OrderBook.init symbol) es = true) :
    levelsConsistent (run (OrderBook.init symbol) es).buy_orders
        (run (OrderBook.init symbol) es).buy_price_map ∧
    levelsConsistent (run (OrderBook.init symbol) es).sell_orders
        (run (OrderBook.init symbol) es).sell_price_map := by
  obtain ⟨hs1, hs2, hA1, hA2, hside⟩ := AuxInv_run (AuxInv_init symbol) h
  exact ⟨levelsConsistent_of_levelsAgree hs1 hA1,
    levelsConsistent_of_levelsAgree hs2 hA2⟩

/-- C1 (witness): the amended theorem applied to the concrete
    well-formed trace `ctrace`. -/
theorem c1_witness :
    wfTraceB (OrderBook.init csym) ctrace = true ∧
    (levelsConsistent (run (OrderBook.init csym) ctrace).buy_orders
        (run (OrderBook.init csym) ctrace).buy_price_map ∧
      levelsConsistent (run (OrderBook.init csym) ctrace).sell_orders
        (run (OrderBook.init csym) ctrace).sell_price_map) :=
  ⟨by decide, c1_level_volume_invariant csym ctrace (by decide)⟩

end Itch

namespace Itch

/-! ## Claim C7 — a row is emitted on every call to the writer -/

/-- C7.  Every call to `write_orderbook` appends exactly one row to the
    output, unconditionally — in particular also when the current
    depth-10 bid and ask slices equal those of `last_state`: the source
    computes the delta comparison but its early return is commented out,
    so the comparison never suppresses the write. -/
theorem c7_emit_on_every_mutation (b : OrderBook) (ts : Nat) :
    (write_orderbook b ts).rows = b.rows ++ [snapshotRow b ts] ∧
    (write_orderbook b ts).rows.length = b.rows.length + 1 := by
  constructor
  · rfl
  · simp [write_orderbook]

/-! ## Claim C8 — the symbol gate leaves all book state untouched -/

/-- C8.  An AddOrder or AddOrderWithMpid whose 8-byte stock field
    differs from the engine's configured symbol, and a Trade (P) event
    regardless of symbol, leave both order maps, both price-level maps
    and the output rows unchanged. -/
theorem c8_symbol_gate (b : OrderBook) :
    (∀ data ts, read_stock data 23 ≠ b.symbol →
      (handle_message b MessageType.AddOrder data ts).buy_orders = b.buy_orders ∧
      (handle_message b MessageType.AddOrder data ts).sell_orders = b.sell_orders ∧
      (handle_message b MessageType.AddOrder data ts).buy_price_map = b.buy_price_map ∧
      (handle_message b MessageType.AddOrder data ts).sell_price_map = b.sell_price_map ∧
      (handle_message b MessageType.AddOrder data ts).rows = b.rows) ∧
    (∀ data ts, read_stock data 23 ≠ b.symbol →
      (handle_message b MessageType.AddOrderWithMpid data ts).buy_orders = b.buy_orders ∧
      (handle_message b MessageType.AddOrderWithMpid data ts).sell_orders = b.sell_orders ∧
      (handle_message b MessageType.AddOrderWithMpid data ts).buy_price_map = b.buy_price_map ∧
      (handle_message b MessageType.AddOrderWithMpid data ts).sell_price_map = b.sell_price_map ∧
      (handle_message b MessageType.AddOrderWithMpid data ts).rows = b.rows) ∧
    (∀ data ts,
      (handle_message b MessageType.Trade data ts).buy_orders = b.buy_orders ∧
      (handle_message b MessageType.Trade data ts).sell_orders = b.sell_orders ∧
      (handle_message b MessageType.Trade data ts).buy_price_map = b.buy_price_map ∧
      (handle_message b MessageType.Trade data ts).sell_price_map = b.sell_price_map ∧
      (handle_message b MessageType.Trade data ts).rows = b.rows) := by
  refine ⟨?_, ?_, ?_⟩
  · intro data ts hne
    simp only [handle_message, handle_add_order]
    rw [if_pos hne]
    refine ⟨?_, ?_, ?_, ?_, ?_⟩ <;> trivial
  · intro data ts hne
    simp only [handle_message, handle_add_order_with_mpid]
    rw [if_pos hne]
    refine ⟨?_, ?_, ?_, ?_, ?_⟩ <;> trivial
  · intro data ts
    simp only [handle_message, handle_trade_eq]
    refine ⟨?_, ?_, ?_, ?_, ?_⟩ <;> trivial

/-- C8 (witness): a concrete AddOrder for "AAPL    " and a concrete
    Trade, against an engine configured for "INTC    ". -/
theorem c8_witness :
    read_stock (cadd1.map (fun x => x + 1)) 23 ≠ (OrderBook.init csym).symbol ∧
    (handle_message (OrderBook.init csym) MessageType.AddOrder
        (cadd1.map (fun x => x + 1)) 5).buy_orders = (OrderBook.init csym).buy_orders ∧
    (handle_message (OrderBook.init csym) MessageType.Trade cadd1 5).rows =
      (OrderBook.init csym).rows :=
  ⟨by decide,
    ((c8_symbol_gate (OrderBook.init csym)).1 (cadd1.map (fun x => x + 1)) 5 (by decide)).1,
    ((c8_symbol_gate (OrderBook.init csym)).2.2 cadd1 5).2.2.2.2⟩

end Itch

namespace Itch

/-! ## Claim C9 — a missing order reference is (almost) a no-op -/

theorem findOrder2_none {b : OrderBook} {r : Nat}
    (h : findOrder2 b r = none) :
    findOrd b.buy_orders r = none ∧ findOrd b.sell_orders r = none := by
  unfold findOrder2 at h
  cases hb : findOrd b.buy_orders r with
  | some o => rw [hb] at h; exact Option.noConfusion h
  | none =>
    rw [hb] at h
    cases hs : findOrd b.sell_orders r with
    | some o => rw [hs] at h; exact Option.noConfusion h
    | none => exact ⟨rfl, rfl⟩

/-- C9 (counterexample).  The claim as stated fails on the code:
    `handle_message` increments the engine's message counter before
    dispatching, so a Delete whose reference is found in neither map
    does *not* leave all engine state unchanged. -/
theorem c9_counterexample :
    findOrder2 (OrderBook.init csym) (read_order_ref_be cexec1 10) = none ∧
    (handle_message (OrderBook.init csym) MessageType.OrderDelete cexec1 3).message_count ≠
      (OrderBook.init csym).message_count := by
  decide

/-- C9 (amended).  For every OrderExecuted, OrderExecutedWithPrice,
    OrderCancel, OrderDelete, or OrderReplace event whose reference
    (original_ref for Replace; offset 10 of the payload in every case)
    is present in neither order map, `handle_message` returns the book
    unchanged except for the message counter, which always advances;
    in particular no snapshot row is emitted and the maps are intact.
    (The pure model has no error case; the Rust return value is
    `Ok(())` here.) -/
theorem c9_missing_reference (b : OrderBook) (mt : MessageType)
    (data : List Nat) (ts : Nat)
    (hmt : mt = MessageType.OrderExecuted ∨ mt = MessageType.OrderExecutedWithPrice ∨
      mt = MessageType.OrderCancel ∨ mt = MessageType.OrderDelete ∨
      mt = MessageType.OrderReplace)
    (href : findOrder2 b (read_order_ref_be data 10) = none) :
    handle_message b mt data ts = { b with message_count := b.message_count + 1 } := by
  obtain ⟨hb, hs⟩ := findOrder2_none href
  rcases hmt with rfl | rfl | rfl | rfl | rfl
  · simp only [handle_message, handle_order_executed, hb, hs]
  · simp only [handle_message, handle_order_executed_with_price, hb, hs]
  · simp only [handle_message, handle_order_cancel, hb, hs]
  · simp only [handle_message, handle_order_delete, hb, hs]
  · simp only [handle_message, handle_order_replace, hb, hs]

/-- C9 (witness): Delete of an absent reference on the initial book
    advances only the message counter. -/
theorem c9_witness :
    findOrder2 (OrderBook.init csym) (read_order_ref_be cexec1 10) = none ∧
    handle_message (OrderBook.init csym) MessageType.OrderDelete cexec1 3 =
      { OrderBook.init csym with
        message_count := (OrderBook.init csym).message_count + 1 } :=
  ⟨by decide,
    c9_missing_reference (OrderBook.init csym) MessageType.OrderDelete cexec1 3
      (Or.inr (Or.inr (Or.inr (Or.inl rfl)))) (by decide)⟩

/-! ## Claim C10 — short payloads fall back to timestamp 0 -/

theorem frame_timestamp_short {mt : MessageType} {md : List Nat}
    (h : md.length < 10) : frame_timestamp mt md = 0 := by
  cases mt <;> simp [frame_timestamp] <;> omega

theorem process_frames_aux_timestamp {data : List Nat} :
    ∀ fuel offset f, f ∈ process_frames_aux data fuel offset →
      f.timestamp = frame_timestamp f.msg_type f.message_data := by
  intro fuel
  induction fuel with
  | zero =>
    intro offset f h
    simp [process_frames_aux] at h
  | succ n ih =>
    intro offset f h
    simp only [process_frames_aux] at h
    split at h
    · split at h
      · split at h
        · rcases List.mem_cons.mp h with rfl | h'
          · rfl
          · exact ih _ f h'
        · simp at h
      · simp at h
    · simp at h

/-- C10.  Every frame the walker produces whose type is one of the eight
    in-scope variants and whose payload span is shorter than 10 bytes is
    dispatched with timestamp 0 (the 6-byte timestamp at payload offset
    4 is not read). -/
theorem c10_short_payload_timestamp (data : List Nat) (f : Frame)
    (hf : f ∈ process_frames data)
    (_hscope : inScopeType f.msg_type = true)
    (hlen : f.message_data.length < 10) :
    f.timestamp = 0 := by
  rw [process_frames_aux_timestamp _ _ f hf]
  exact frame_timestamp_short hlen

/-- Input for the C10 witness: a single AddOrder frame with a 4-byte
    payload, plus one trailing byte so the walker accepts the frame. -/
def cshort : List Nat := [0, 5, 65, 1, 2, 3, 4, 99]

/-- C10 (witness): the concrete short AddOrder frame is dispatched with
    timestamp 0. -/
theorem c10_witness :
    ({ start := 0, msg_length := 5, msg_type := MessageType.AddOrder,
       message_data := [1, 2, 3, 4], timestamp := 0 } : Frame) ∈ process_frames cshort ∧
    inScopeType MessageType.AddOrder = true ∧
    ([1, 2, 3, 4] : List Nat).length < 10 ∧
    ({ start := 0, msg_length := 5, msg_type := MessageType.AddOrder,
       message_data := [1, 2, 3, 4], timestamp := 0 } : Frame).timestamp = 0 :=
  ⟨by decide, by decide, by decide,
    c10_short_payload_timestamp cshort _ (by decide) (by decide) (by decide)⟩

end Itch

namespace Itch

/-! ## Claim C3 — feed-walker framing -/

/-- C3 (counterexample).  `[0, 1, 65]` is one complete frame: length
    prefix 1, type byte 'A', empty payload, ending exactly at
    data.len() = 3.  Neither stop condition of the claim holds at
    offset 0 (0 + 3 ≤ 3 and 0 + 2 + len ≤ 3 with len = 1), so per the
    claim the frame would be processed — yet the walker stops without
    processing it: the source's truncation check (performed after
    advancing past the 3-byte header) demands `offset + 3 + len ≤
    data.len()`, one byte more than the frame occupies. -/
theorem c3_counterexample :
    process_frames [0, 1, 65] = [] ∧
    read_u16_be [0, 1, 65] 0 = 1 ∧
    ¬ (0 + 3 > ([0, 1, 65] : List Nat).length) ∧
    ¬ (0 + 2 + 1 > ([0, 1, 65] : List Nat).length) := by
  decide

/-- C3 (amended).  The cursor starts at offset 0, and for each processed
    frame advances by exactly `2 + len` (`len` being the frame's u16
    big-endian length prefix); iteration stops silently — no error is
    reported — when `offset + 3 > data.len()` or when
    `offset + 3 + len > data.len()`, so a final frame that ends exactly
    at the end of the input is also treated as truncated.  (A frame with
    `len = 0` additionally halts the walk, where the source's
    `msg_length - 1` slice arithmetic panics.) -/
theorem c3_framing (data : List Nat) (fuel offset : Nat) :
    process_frames data = process_frames_aux data (data.length + 1) 0 ∧
    (offset + 3 > data.length → process_frames_aux data (fuel + 1) offset = []) ∧
    (offset + 3 ≤ data.length → offset + 3 + read_u16_be data offset > data.length →
      process_frames_aux data (fuel + 1) offset = []) ∧
    (offset + 3 ≤ data.length → offset + 3 + read_u16_be data offset ≤ data.length →
      1 ≤ read_u16_be data offset →
      process_frames_aux data (fuel + 1) offset =
        { start := offset, msg_length := read_u16_be data offset,
          msg_type := MessageType.ofByte (byteAt data (offset + 2)),
          message_data := (data.drop (offset + 3)).take (read_u16_be data offset - 1),
          timestamp := frame_timestamp (MessageType.ofByte (byteAt data (offset + 2)))
            ((data.drop (offset + 3)).take (read_u16_be data offset - 1)) } ::
          process_frames_aux data fuel (offset + (2 + read_u16_be data offset))) := by
  refine ⟨rfl, ?_, ?_, ?_⟩
  · intro h
    rw [process_frames_aux, if_neg (by simp only [MSG_HEADER_SIZE]; omega)]
  · intro h1 h2
    rw [process_frames_aux, if_pos (by simp only [MSG_HEADER_SIZE]; omega)]
    rw [if_neg (by simp only [MSG_HEADER_SIZE]; omega)]
  · intro h1 h2 h3
    rw [process_frames_aux, if_pos (by simp only [MSG_HEADER_SIZE]; omega),
      if_pos (by simp only [MSG_HEADER_SIZE]; omega), if_pos h3]
    have hadv : offset + MSG_HEADER_SIZE + (read_u16_be data offset - 1) =
        offset + (2 + read_u16_be data offset) := by
      simp only [MSG_HEADER_SIZE]
      omega
    rw [hadv]
    rfl

/-- C3 (witness): the amended stepping applied at the concrete input
    `cshort` — offset 0 holds a frame of length prefix 5 and the walker
    advances the cursor to `0 + (2 + 5)`; at `[0, 1, 65]` the one-byte-
    short truncation check stops the walk. -/
theorem c3_witness :
    process_frames_aux cshort 8 0 =
      { start := 0, msg_length := 5, msg_type := MessageType.AddOrder,
        message_data := [1, 2, 3, 4], timestamp := 0 } ::
        process_frames_aux cshort 7 (0 + (2 + 5)) ∧
    process_frames_aux ([0, 1, 65] : List Nat) 1 0 = [] := by
  constructor
  · have h := (c3_framing cshort 7 0).2.2.2 (by decide) (by decide) (by decide)
    rw [h]
    decide
  · exact (c3_framing ([0, 1, 65] : List Nat) 0 0).2.2.1 (by decide) (by decide)

end Itch

namespace Itch

/-! ## Claim C5 — snapshot metrics -/

/-- C5.  Every emitted row carries
    `mid_price = (best_bid + best_ask) / 20000` where `best_bid`
    (resp. `best_ask`) is the first level of the depth-10 bid (ask)
    slice or 0 when that side is empty, and
    `imbalance = (ΣB − ΣA) / (ΣB + ΣA)` over the depth-10 slices only,
    with `imbalance = 0` when both sums are zero.  The hypotheses state
    that the `u32` volume sums do not wrap, so the formulas are over the
    true sums. -/
theorem c5_snapshot_metrics (b : OrderBook) (ts : Nat)
    (hB : ((get_top_bids b MAX_BOOK_DEPTH).map (fun pl => pl.total_volume)).sum < 4294967296)
    (hA : ((get_top_asks b MAX_BOOK_DEPTH).map (fun pl => pl.total_volume)).sum < 4294967296) :
    (write_orderbook b ts).rows = b.rows ++ [snapshotRow b ts] ∧
    (snapshotRow b ts).mid_price =
      ((best_price (get_top_bids b MAX_BOOK_DEPTH) : ℚ) +
        (best_price (get_top_asks b MAX_BOOK_DEPTH) : ℚ)) / 20000 ∧
    (get_top_bids b MAX_BOOK_DEPTH = [] → best_price (get_top_bids b MAX_BOOK_DEPTH) = 0) ∧
    (∀ pl rest, get_top_bids b MAX_BOOK_DEPTH = pl :: rest →
      best_price (get_top_bids b MAX_BOOK_DEPTH) = pl.price) ∧
    (get_top_asks b MAX_BOOK_DEPTH = [] → best_price (get_top_asks b MAX_BOOK_DEPTH) = 0) ∧
    (∀ pl rest, get_top_asks b MAX_BOOK_DEPTH = pl :: rest →
      best_price (get_top_asks b MAX_BOOK_DEPTH) = pl.price) ∧
    (snapshotRow b ts).imbalance =
      (if ((get_top_bids b MAX_BOOK_DEPTH).map (fun pl => pl.total_volume)).sum = 0 ∧
          ((get_top_asks b MAX_BOOK_DEPTH).map (fun pl => pl.total_volume)).sum = 0
        then 0
        else (((((get_top_bids b MAX_BOOK_DEPTH).map (fun pl => pl.total_volume)).sum : Nat) : ℚ) -
              ((((get_top_asks b MAX_BOOK_DEPTH).map (fun pl => pl.total_volume)).sum : Nat) : ℚ)) /
             (((((get_top_bids b MAX_BOOK_DEPTH).map (fun pl => pl.total_volume)).sum : Nat) : ℚ) +
              ((((get_top_asks b MAX_BOOK_DEPTH).map (fun pl => pl.total_volume)).sum : Nat) : ℚ))) := by
  refine ⟨rfl, rfl, ?_, ?_, ?_, ?_, ?_⟩
  · intro h
    rw [best_price, h]
    rfl
  · intro pl rest h
    rw [best_price, h]
    rfl
  · intro h
    rw [best_price, h]
    rfl
  · intro pl rest h
    rw [best_price, h]
    rfl
  · show imbalance_of b = _
    unfold imbalance_of calculate_imbalance
    rw [Nat.mod_eq_of_lt hB, Nat.mod_eq_of_lt hA]

/-- The book after a single in-symbol AddOrder, used as a C5 witness. -/
def cbook : OrderBook :=
  handle_message (OrderBook.init csym) MessageType.AddOrder cadd1 7

/-- C5 (witness): the metric formulas at the concrete one-level book. -/
theorem c5_witness :
    ((get_top_bids cbook MAX_BOOK_DEPTH).map (fun pl => pl.total_volume)).sum < 4294967296 ∧
    ((get_top_asks cbook MAX_BOOK_DEPTH).map (fun pl => pl.total_volume)).sum < 4294967296 ∧
    ((write_orderbook cbook 9).rows = cbook.rows ++ [snapshotRow cbook 9] ∧
      (snapshotRow cbook 9).mid_price =
        ((best_price (get_top_bids cbook MAX_BOOK_DEPTH) : ℚ) +
          (best_price (get_top_asks cbook MAX_BOOK_DEPTH) : ℚ)) / 20000) :=
  ⟨by decide, by decide,
    ⟨(c5_snapshot_metrics cbook 9 (by decide) (by decide)).1,
      (c5_snapshot_metrics cbook 9 (by decide) (by decide)).2.1⟩⟩

end Itch

namespace Itch

instance (m : PriceMap) : Decidable (PMSorted m) :=
  inferInstanceAs (Decidable (List.Pairwise _ m))

/-! ## Claim C6 — depth extraction -/

/-- Specification of a depth slice `(l.take n).map mk` of a key-ordered
    association list, for an arbitrary strict order `R` on keys: correct
    length, slice ordered by `R`, every slice entry present in the map,
    and every omitted map entry `R`-after every slice entry. -/
theorem topSlice_spec (R : Nat → Nat → Prop) (l : List (Nat × Nat)) (n : Nat)
    (hs : List.Pairwise (fun a b => R a.1 b.1) l) :
    ((l.take n).map (fun pv => ({ price := pv.1, total_volume := pv.2 } : PriceLevel))).length
        = min n l.length ∧
    List.Pairwise (fun x y => R x.price y.price)
      ((l.take n).map (fun pv => ({ price := pv.1, total_volume := pv.2 } : PriceLevel))) ∧
    (∀ pl ∈ (l.take n).map (fun pv => ({ price := pv.1, total_volume := pv.2 } : PriceLevel)),
      (pl.price, pl.total_volume) ∈ l) ∧
    (∀ pv ∈ l, ({ price := pv.1, total_volume := pv.2 } : PriceLevel) ∉
        (l.take n).map (fun pv => ({ price := pv.1, total_volume := pv.2 } : PriceLevel)) →
      ∀ pl ∈ (l.take n).map (fun pv => ({ price := pv.1, total_volume := pv.2 } : PriceLevel)),
        R pl.price pv.1) := by
  refine ⟨by simp, ?_, ?_, ?_⟩
  · exact List.pairwise_map.mpr (List.Pairwise.sublist (List.take_sublist n l) hs)
  · intro pl hpl
    obtain ⟨pv, hpv, rfl⟩ := List.mem_map.mp hpl
    simpa using List.mem_of_mem_take hpv
  · intro pv hpv hnot pl hpl
    have hsplit := List.take_append_drop n l
    have hpw : List.Pairwise (fun a b => R a.1 b.1) (l.take n ++ l.drop n) := by
      rw [hsplit]
      exact hs
    have hdis := (List.pairwise_append.mp hpw).2.2
    have hpv' : pv ∈ l.take n ++ l.drop n := by
      rw [hsplit]
      exact hpv
    rcases List.mem_append.mp hpv' with htake | hdrop
    · exact absurd (List.mem_map_of_mem _ htake) hnot
    · obtain ⟨x, hx, rfl⟩ := List.mem_map.mp hpl
      exact hdis x hx pv hdrop

/-- C6.  For every book whose price maps satisfy the `BTreeMap`
    representation invariant (keys strictly ascending): the bid slice
    is the at-most-10 highest prices of the Buy levels in strictly
    descending order, the ask slice the at-most-10 lowest prices of the
    Sell levels in strictly ascending order, each entry paired with its
    stored aggregate volume, every omitted Buy (Sell) level lying
    strictly below (above) every bid (ask) slice entry; and `pad_levels`
    pads each slice at the tail with `{price := 0, total_volume := 0}`
    entries to exactly 10. -/
theorem c6_depth_extraction (b : OrderBook)
    (hs1 : PMSorted b.buy_price_map) (hs2 : PMSorted b.sell_price_map) :
    (get_top_bids b MAX_BOOK_DEPTH).length = min MAX_BOOK_DEPTH b.buy_price_map.length ∧
    List.Pairwise (fun x y => y.price < x.price) (get_top_bids b MAX_BOOK_DEPTH) ∧
    (∀ pl ∈ get_top_bids b MAX_BOOK_DEPTH,
      (pl.price, pl.total_volume) ∈ b.buy_price_map) ∧
    (∀ pv ∈ b.buy_price_map,
      ({ price := pv.1, total_volume := pv.2 } : PriceLevel) ∉ get_top_bids b MAX_BOOK_DEPTH →
      ∀ pl ∈ get_top_bids b MAX_BOOK_DEPTH, pv.1 < pl.price) ∧
    (get_top_asks b MAX_BOOK_DEPTH).length = min MAX_BOOK_DEPTH b.sell_price_map.length ∧
    List.Pairwise (fun x y => x.price < y.price) (get_top_asks b MAX_BOOK_DEPTH) ∧
    (∀ pl ∈ get_top_asks b MAX_BOOK_DEPTH,
      (pl.price, pl.total_volume) ∈ b.sell_price_map) ∧
    (∀ pv ∈ b.sell_price_map,
      ({ price := pv.1, total_volume := pv.2 } : PriceLevel) ∉ get_top_asks b MAX_BOOK_DEPTH →
      ∀ pl ∈ get_top_asks b MAX_BOOK_DEPTH, pl.price < pv.1) ∧
    pad_levels (get_top_bids b MAX_BOOK_DEPTH) MAX_BOOK_DEPTH =
      get_top_bids b MAX_BOOK_DEPTH ++
        List.replicate (MAX_BOOK_DEPTH - (get_top_bids b MAX_BOOK_DEPTH).length)
          { price := 0, total_volume := 0 } ∧
    (pad_levels (get_top_bids b MAX_BOOK_DEPTH) MAX_BOOK_DEPTH).length = MAX_BOOK_DEPTH ∧
    pad_levels (get_top_asks b MAX_BOOK_DEPTH) MAX_BOOK_DEPTH =
      get_top_asks b MAX_BOOK_DEPTH ++
        List.replicate (MAX_BOOK_DEPTH - (get_top_asks b MAX_BOOK_DEPTH).length)
          { price := 0, total_volume := 0 } ∧
    (pad_levels (get_top_asks b MAX_BOOK_DEPTH) MAX_BOOK_DEPTH).length = MAX_BOOK_DEPTH := by
  have hrev : List.Pairwise (fun a b : Nat × Nat => b.1 < a.1) b.buy_price_map.reverse :=
    List.pairwise_reverse.mpr hs1
  obtain ⟨hbl, hbp, hbm, hbx⟩ :=
    topSlice_spec (fun x y => y < x) b.buy_price_map.reverse MAX_BOOK_DEPTH hrev
  obtain ⟨hal, hap, ham, hax⟩ :=
    topSlice_spec (fun x y => x < y) b.sell_price_map MAX_BOOK_DEPTH hs2
  have hblen : (get_top_bids b MAX_BOOK_DEPTH).length ≤ MAX_BOOK_DEPTH := by
    rw [show (get_top_bids b MAX_BOOK_DEPTH).length =
      min MAX_BOOK_DEPTH b.buy_price_map.reverse.length from hbl]
    omega
  have halen : (get_top_asks b MAX_BOOK_DEPTH).length ≤ MAX_BOOK_DEPTH := by
    rw [show (get_top_asks b MAX_BOOK_DEPTH).length =
      min MAX_BOOK_DEPTH b.sell_price_map.length from hal]
    omega
  refine ⟨?_, hbp, ?_, ?_, hal, hap, ham, hax, rfl, ?_, rfl, ?_⟩
  · rw [show (get_top_bids b MAX_BOOK_DEPTH).length =
      min MAX_BOOK_DEPTH b.buy_price_map.reverse.length from hbl, List.length_reverse]
  · intro pl hpl
    exact List.mem_reverse.mp (hbm pl hpl)
  · intro pv hpv hnot
    exact hbx pv (List.mem_reverse.mpr hpv) hnot
  · simp only [pad_levels, List.length_append, List.length_replicate]
    omega
  · simp only [pad_levels, List.length_append, List.length_replicate]
    omega

/-- C6 (witness): the depth-extraction properties at the concrete
    one-level book `cbook`. -/
theorem c6_witness :
    PMSorted cbook.buy_price_map ∧ PMSorted cbook.sell_price_map ∧
    ((pad_levels (get_top_bids cbook MAX_BOOK_DEPTH) MAX_BOOK_DEPTH).length = MAX_BOOK_DEPTH ∧
      List.Pairwise (fun x y => y.price < x.price) (get_top_bids cbook MAX_BOOK_DEPTH)) :=
  ⟨by decide, by decide,
    ⟨(c6_depth_extraction cbook (by decide) (by decide)).2.2.2.2.2.2.2.2.2.1,
      (c6_depth_extraction cbook (by decide) (by decide)).2.1⟩⟩

end Itch

namespace Itch

/-! ## Claim C4 — saturating decrement -/

theorem mem_keys_insertOrd {m : OrdMap} {k : Nat} {o : Order} {a : Nat}
    (h : a ∈ (insertOrd m k o).map Prod.fst) : a = k ∨ a ∈ m.map Prod.fst := by
  obtain ⟨kv, hkv, rfl⟩ := List.mem_map.mp h
  rcases mem_insertOrd hkv with h1 | rfl
  · exact Or.inr (List.mem_map_of_mem _ h1)
  · exact Or.inl rfl

theorem nodupKeys_insertOrd {m : OrdMap} {k : Nat} {o : Order}
    (h : (m.map Prod.fst).Nodup) : ((insertOrd m k o).map Prod.fst).Nodup := by
  induction m with
  | nil => simp [insertOrd]
  | cons kv t ih =>
    obtain ⟨k', o'⟩ := kv
    simp only [List.map_cons, List.nodup_cons] at h
    rw [insertOrd]
    by_cases hk : k' = k
    · subst hk
      rw [if_pos rfl]
      simp only [List.map_cons, List.nodup_cons]
      exact h
    · rw [if_neg hk]
      simp only [List.map_cons, List.nodup_cons]
      refine ⟨?_, ih h.2⟩
      intro hmem
      rcases mem_keys_insertOrd hmem with rfl | hmem'
      · exact hk rfl
      · exact h.1 hmem'

theorem findOrder2_buy {b : OrderBook} {r : Nat} {o : Order}
    (h : findOrder2 b r = some (Side.Buy, o)) :
    findOrd b.buy_orders r = some o := by
  unfold findOrder2 at h
  cases hb : findOrd b.buy_orders r with
  | some o' =>
    rw [hb] at h
    obtain rfl : o' = o := by simpa using h
    rfl
  | none =>
    rw [hb] at h
    cases hs : findOrd b.sell_orders r with
    | some o' => rw [hs] at h; simp at h
    | none => rw [hs] at h; exact Option.noConfusion h

theorem findOrder2_sell {b : OrderBook} {r : Nat} {o : Order}
    (h : findOrder2 b r = some (Side.Sell, o)) :
    findOrd b.buy_orders r = none ∧ findOrd b.sell_orders r = some o := by
  unfold findOrder2 at h
  cases hb : findOrd b.buy_orders r with
  | some o' => rw [hb] at h; simp at h
  | none =>
    rw [hb] at h
    cases hs : findOrd b.sell_orders r with
    | some o' =>
      rw [hs] at h
      obtain rfl : o' = o := by simpa using h
      exact ⟨rfl, rfl⟩
    | none => rw [hs] at h; exact Option.noConfusion h

/-- What C4 claims of one handler result `b'`: the order's remaining
    shares saturate to exactly 0, the order is removed from its map,
    the price-level volume decreases saturatingly (the key pruned when
    it reaches 0), and the level volume never increases. -/
def c4Post (b b' : OrderBook) (s : Side) (o : Order) (data : List Nat) : Prop :=
  o.shares - read_u32_be data 18 = 0 ∧
  findOrd (ordersOf b' s) (read_order_ref_be data 10) = none ∧
  findPL (levelsOf b' s) o.price =
    (match findPL (levelsOf b s) o.price with
     | none => none
     | some w => if w - read_u32_be data 18 = 0 then none
                 else some (w - read_u32_be data 18)) ∧
  (∀ w w', findPL (levelsOf b s) o.price = some w →
    findPL (levelsOf b' s) o.price = some w' → w' ≤ w)

/-- C4.  For every OrderExecuted, OrderExecutedWithPrice, or OrderCancel
    event whose reference is found (side `s`, order `o`) and whose
    executed/cancelled amount exceeds the order's remaining shares, the
    shares saturate to exactly 0 and the order is removed, the level
    volume saturates without wraparound (all values are `Nat`s in the
    model because the source uses `saturating_sub` on `u32`), and the
    stored level volume does not increase. -/
theorem c4_saturating_decrement (b : OrderBook) (data : List Nat) (ts : Nat)
    (s : Side) (o : Order)
    (hf : findOrder2 b (read_order_ref_be data 10) = some (s, o))
    (hnd : ((ordersOf b s).map Prod.fst).Nodup)
    (hsort : PMSorted (levelsOf b s))
    (hgt : o.shares < read_u32_be data 18) :
    c4Post b (handle_order_executed b data ts) s o data ∧
    c4Post b (handle_order_executed_with_price b data ts) s o data ∧
    c4Post b (handle_order_cancel b data ts) s o data := by
  rw [handle_order_executed_with_price_eq, handle_order_cancel_eq]
  have hz : o.shares - read_u32_be data 18 = 0 := by omega
  suffices h : c4Post b (handle_order_executed b data ts) s o data from ⟨h, h, h⟩
  cases s with
  | Buy =>
    have hb : findOrd b.buy_orders (read_order_ref_be data 10) = some o := findOrder2_buy hf
    have hord : ordersOf (handle_order_executed b data ts) Side.Buy =
        eraseOrd (insertOrd b.buy_orders (read_order_ref_be data 10)
          { o with shares := o.shares - read_u32_be data 18 }) (read_order_ref_be data 10) := by
      simp only [handle_order_executed, hb, ordersOf, write_orderbook, hz, reduceIte]
    have hlev : levelsOf (handle_order_executed b data ts) Side.Buy =
        decVolume b.buy_price_map o.price (read_u32_be data 18) := by
      simp only [handle_order_executed, hb, levelsOf, write_orderbook]
    have hsortb : PMSorted b.buy_price_map := hsort
    refine ⟨hz, ?_, ?_, ?_⟩
    · rw [hord]
      exact findOrd_eraseOrd_self (nodupKeys_insertOrd hnd)
    · rw [hlev, findPL_decVolume _ _ _ hsortb, if_pos rfl]
      rfl
    · intro w w' hw hw'
      have hw2 : findPL b.buy_price_map o.price = some w := hw
      rw [hlev, findPL_decVolume _ _ _ hsortb, if_pos rfl] at hw'
      simp only [hw2] at hw'
      by_cases hwz : w - read_u32_be data 18 = 0
      · rw [if_pos hwz] at hw'
        exact Option.noConfusion hw'
      · rw [if_neg hwz] at hw'
        have : w - read_u32_be data 18 = w' := Option.some.inj hw'
        omega
  | Sell =>
    obtain ⟨hbn, hb⟩ := findOrder2_sell hf
    have hord : ordersOf (handle_order_executed b data ts) Side.Sell =
        eraseOrd (insertOrd b.sell_orders (read_order_ref_be data 10)
          { o with shares := o.shares - read_u32_be data 18 }) (read_order_ref_be data 10) := by
      simp only [handle_order_executed, hbn, hb, ordersOf, write_orderbook, hz, reduceIte]
    have hlev : levelsOf (handle_order_executed b data ts) Side.Sell =
        decVolume b.sell_price_map o.price (read_u32_be data 18) := by
      simp only [handle_order_executed, hbn, hb, levelsOf, write_orderbook]
    have hsorts : PMSorted b.sell_price_map := hsort
    refine ⟨hz, ?_, ?_, ?_⟩
    · rw [hord]
      exact findOrd_eraseOrd_self (nodupKeys_insertOrd hnd)
    · rw [hlev, findPL_decVolume _ _ _ hsorts, if_pos rfl]
      rfl
    · intro w w' hw hw'
      have hw2 : findPL b.sell_price_map o.price = some w := hw
      rw [hlev, findPL_decVolume _ _ _ hsorts, if_pos rfl] at hw'
      simp only [hw2] at hw'
      by_cases hwz : w - read_u32_be data 18 = 0
      · rw [if_pos hwz] at hw'
        exact Option.noConfusion hw'
      · rw [if_neg hwz] at hw'
        have : w - read_u32_be data 18 = w' := Option.some.inj hw'
        omega

/-- Order Executed payload over-executing ref 1: 130 executed shares. -/
def cexecbig : List Nat :=
  [0,0,0,0,0,0,0,0,0,0, 0,0,0,0,0,0,0,1, 0,0,0,130]

/-- The resting order created by `cadd1`. -/
def corder : Order :=
  { ref_number := 1, timestamp := 7, price := 500000, shares := 100, side := Side.Buy }

/-- C4 (witness): over-executing the concrete 100-share order saturates
    it to 0 and removes it, and the level key is pruned. -/
theorem c4_witness :
    findOrder2 cbook (read_order_ref_be cexecbig 10) = some (Side.Buy, corder) ∧
    corder.shares < read_u32_be cexecbig 18 ∧
    c4Post cbook (handle_order_executed cbook cexecbig 11) Side.Buy corder cexecbig :=
  ⟨by decide, by decide,
    (c4_saturating_decrement cbook cexecbig 11 Side.Buy _
      (by decide) (by decide) (by decide) (by decide)).1⟩

end Itch

namespace Itch

/-! ## Claim C2 — replace semantics -/

/-- What C2 claims of a replace that found order `o` on side `s`: the
    original order removed and the new one inserted on the same side
    with the payload's new reference, shares and price (net effect on
    the order map and on the level map); the new order findable under
    `new_ref` and the original gone; the old price level decremented by
    the old shares with the key pruned at zero; the other side
    untouched; and exactly one appended row, reflecting the
    post-replace state. -/
def c2Post (b b' : OrderBook) (s : Side) (o : Order) (data : List Nat) (ts : Nat) : Prop :=
  ordersOf b' s =
    insertOrd (eraseOrd (ordersOf b s) (read_order_ref_be data 10))
      (read_order_ref_be data 18)
      { ref_number := read_order_ref_be data 18, timestamp := ts,
        price := read_u32_be data 30, shares := read_u32_be data 26, side := s } ∧
  levelsOf b' s =
    addVolume (decVolume (levelsOf b s) o.price o.shares)
      (read_u32_be data 30) (read_u32_be data 26) ∧
  findOrd (ordersOf b' s) (read_order_ref_be data 18) =
    some { ref_number := read_order_ref_be data 18, timestamp := ts,
           price := read_u32_be data 30, shares := read_u32_be data 26, side := s } ∧
  (read_order_ref_be data 10 ≠ read_order_ref_be data 18 →
    ((ordersOf b s).map Prod.fst).Nodup →
    findOrd (ordersOf b' s) (read_order_ref_be data 10) = none) ∧
  (read_u32_be data 30 ≠ o.price → PMSorted (levelsOf b s) →
    ∀ w, findPL (levelsOf b s) o.price = some w →
      findPL (levelsOf b' s) o.price =
        (if w - o.shares = 0 then none else some (w - o.shares))) ∧
  ordersOf b' (otherSide s) = ordersOf b (otherSide s) ∧
  levelsOf b' (otherSide s) = levelsOf b (otherSide s) ∧
  b'.rows = b.rows ++ [snapshotRow b' ts]

/-- C2.  For every OrderReplace event: if the original reference is in
    neither order map, the handler changes nothing and emits no row;
    if it is found (as order `o` on side `s` — `o.side = s` is the
    stored-side consistency that holds for every reachable book), the
    handler removes the order, decrements the old price level by the old
    shares (pruning at zero), inserts the new order with the payload's
    new reference, price and shares on the same side, leaves the other
    side alone, and appends exactly one row (not two) that reflects the
    post-replace state. -/
theorem c2_replace_semantics (b : OrderBook) (data : List Nat) (ts : Nat) :
    (findOrder2 b (read_order_ref_be data 10) = none →
      handle_order_replace b data ts = b) ∧
    (∀ s o, findOrder2 b (read_order_ref_be data 10) = some (s, o) → o.side = s →
      c2Post b (handle_order_replace b data ts) s o data ts) := by
  constructor
  · intro h
    obtain ⟨hb, hs⟩ := findOrder2_none h
    simp only [handle_order_replace, hb, hs]
  · intro s o hf hside
    cases s with
    | Buy =>
      have hb : findOrd b.buy_orders (read_order_ref_be data 10) = some o :=
        findOrder2_buy hf
      have heq : handle_order_replace b data ts =
          write_orderbook
            { b with
              buy_orders := insertOrd (eraseOrd b.buy_orders (read_order_ref_be data 10))
                (read_order_ref_be data 18)
                { ref_number := read_order_ref_be data 18, timestamp := ts,
                  price := read_u32_be data 30, shares := read_u32_be data 26,
                  side := Side.Buy }
              buy_price_map := addVolume (decVolume b.buy_price_map o.price o.shares)
                (read_u32_be data 30) (read_u32_be data 26) } ts := by
        simp only [handle_order_replace, hb]
        rw [if_pos hside]
        simp only [add_order]
        rw [if_pos hside]
        rw [hside]
      have hord : ordersOf (handle_order_replace b data ts) Side.Buy =
          insertOrd (eraseOrd b.buy_orders (read_order_ref_be data 10))
            (read_order_ref_be data 18)
            { ref_number := read_order_ref_be data 18, timestamp := ts,
              price := read_u32_be data 30, shares := read_u32_be data 26,
              side := Side.Buy } := by
        rw [heq]
        rfl
      have hlev : levelsOf (handle_order_replace b data ts) Side.Buy =
          addVolume (decVolume b.buy_price_map o.price o.shares)
            (read_u32_be data 30) (read_u32_be data 26) := by
        rw [heq]
        rfl
      refine ⟨hord, hlev, ?_, ?_, ?_, ?_, ?_, ?_⟩
      · rw [hord, findOrd_insertOrd, if_pos rfl]
      · intro hne hnd
        rw [hord, findOrd_insertOrd, if_neg (fun hh => hne hh.symm)]
        exact findOrd_eraseOrd_self hnd
      · intro hne hsort w hw
        have hsort' : PMSorted b.buy_price_map := hsort
        have hw' : findPL b.buy_price_map o.price = some w := hw
        rw [hlev, findPL_addVolume _ _ _ (PMSorted_decVolume _ _ hsort'),
          if_neg hne, findPL_decVolume _ _ _ hsort', if_pos rfl]
        simp only [hw']
      · rw [heq]
        rfl
      · rw [heq]
        rfl
      · rw [heq]
        rfl
    | Sell =>
      obtain ⟨hbn, hb⟩ := findOrder2_sell hf
      have heq : handle_order_replace b data ts =
          write_orderbook
            { b with
              sell_orders := insertOrd (eraseOrd b.sell_orders (read_order_ref_be data 10))
                (read_order_ref_be data 18)
                { ref_number := read_order_ref_be data 18, timestamp := ts,
                  price := read_u32_be data 30, shares := read_u32_be data 26,
                  side := Side.Sell }
              sell_price_map := addVolume (decVolume b.sell_price_map o.price o.shares)
                (read_u32_be data 30) (read_u32_be data 26) } ts := by
        simp only [handle_order_replace, hbn, hb]
        rw [if_neg (by rw [hside]; intro hc; exact Side.noConfusion hc)]
        simp only [add_order]
        rw [if_neg (by rw [hside]; intro hc; exact Side.noConfusion hc)]
        rw [hside]
      have hord : ordersOf (handle_order_replace b data ts) Side.Sell =
          insertOrd (eraseOrd b.sell_orders (read_order_ref_be data 10))
            (read_order_ref_be data 18)
            { ref_number := read_order_ref_be data 18, timestamp := ts,
              price := read_u32_be data 30, shares := read_u32_be data 26,
              side := Side.Sell } := by
        rw [heq]
        rfl
      have hlev : levelsOf (handle_order_replace b data ts) Side.Sell =
          addVolume (decVolume b.sell_price_map o.price o.shares)
            (read_u32_be data 30) (read_u32_be data 26) := by
        rw [heq]
        rfl
      refine ⟨hord, hlev, ?_, ?_, ?_, ?_, ?_, ?_⟩
      · rw [hord, findOrd_insertOrd, if_pos rfl]
      · intro hne hnd
        rw [hord, findOrd_insertOrd, if_neg (fun hh => hne hh.symm)]
        exact findOrd_eraseOrd_self hnd
      · intro hne hsort w hw
        have hsort' : PMSorted b.sell_price_map := hsort
        have hw' : findPL b.sell_price_map o.price = some w := hw
        rw [hlev, findPL_addVolume _ _ _ (PMSorted_decVolume _ _ hsort'),
          if_neg hne, findPL_decVolume _ _ _ hsort', if_pos rfl]
        simp only [hw']
      · rw [heq]
        rfl
      · rw [heq]
        rfl
      · rw [heq]
        rfl

/-- Order Replace payload: original ref 1 → new ref 2, 80 shares at
    price 499800. -/
def creplace : List Nat :=
  [0,0,0,0,0,0,0,0,0,0, 0,0,0,0,0,0,0,1, 0,0,0,0,0,0,0,2, 0,0,0,80, 0,7,160,56]

/-- C2 (witness): replacing the concrete order — the found case of the
    theorem at `cbook`, plus the not-found case on the empty book. -/
theorem c2_witness :
    findOrder2 cbook (read_order_ref_be creplace 10) = some (Side.Buy, corder) ∧
    corder.side = Side.Buy ∧
    c2Post cbook (handle_order_replace cbook creplace 12) Side.Buy corder creplace 12 ∧
    (findOrder2 (OrderBook.init csym) (read_order_ref_be creplace 10) = none ∧
      handle_order_replace (OrderBook.init csym) creplace 12 = OrderBook.init csym) :=
  ⟨by decide, by decide,
    (c2_replace_semantics cbook creplace 12).2 Side.Buy corder (by decide) (by decide),
    ⟨by decide, (c2_replace_semantics (OrderBook.init csym) creplace 12).1 (by decide)⟩⟩

end Itch
